import Mathlib

/-!
Verification development for the RealtimeDataPlatform repository.

Shallow embedding of the observability core (HealthChecker, MetricsCollector,
AlertManager), the queue layer (MessageProcessor, DeadLetterQueue) and the
stampede-protected cache (CacheLock + CacheService.getWithProtection),
together with theorems settling the frozen specification claims.
All definitions are translated from the JavaScript sources under src/.
-/

set_option maxRecDepth 4000

deriving instance DecidableEq for Except

/-! ## Health checker (src/src/utils/monitoring/HealthChecker.js) -/

namespace HealthChecker

/-- Health status enumeration, mirroring the `HealthStatus` object. -/
inductive HStatus where
  | unknown
  | healthy
  | unhealthy
  | degraded
deriving DecidableEq, Repr

/-- One entry of `this.status.components`: the per-check record
(we keep only the fields relevant to aggregation). -/
structure Component where
  critical : Bool
  status : HStatus
deriving DecidableEq, Repr

/-- The checker state: `this.status.components` (keyed by check name)
and `this.status.status`. -/
structure CheckerState where
  components : List (String × Component)
  status : HStatus
deriving Repr

/-- Constructor state: `status: HealthStatus.UNKNOWN`, no components. -/
def initState : CheckerState := { components := [], status := HStatus.unknown }

/-- `registerCheck`: stores the check and seeds an `unknown` record
(`critical: options.critical !== false`). -/
def registerCheck (st : CheckerState) (name : String) (critical : Bool) : CheckerState :=
  { st with components :=
      st.components ++ [(name, { critical := critical, status := HStatus.unknown })] }

/-- `_updateOverallStatus`: scan the components; unhealthy critical wins,
then unhealthy non-critical, else healthy. -/
def updateOverallStatus (components : List (String × Component)) : HStatus :=
  let hasUnhealthyCritical :=
    components.any (fun c => c.2.status = HStatus.unhealthy ∧ c.2.critical)
  let hasUnhealthyNonCritical :=
    components.any (fun c => c.2.status = HStatus.unhealthy ∧ ¬ c.2.critical)
  if hasUnhealthyCritical then HStatus.unhealthy
  else if hasUnhealthyNonCritical then HStatus.degraded
  else HStatus.healthy

/-- `runCheck` as it affects a component record: a resolved check sets the
status to healthy, a rejected or timed-out check sets it to unhealthy.
`outcome` is the result of racing the check against its timeout. -/
def runCheck (c : Component) (outcome : Bool) : Component :=
  { c with status := if outcome then HStatus.healthy else HStatus.unhealthy }

/-- `checkAll`: run every registered check independently, then recompute the
overall status via `_updateOverallStatus`. `outcomes` gives each named
check's result. -/
def checkAll (st : CheckerState) (outcomes : String → Bool) : CheckerState :=
  let components := st.components.map (fun c => (c.1, runCheck c.2 (outcomes c.1)))
  { components := components, status := updateOverallStatus components }

/-- Modelled from the spec's words (§3): "unhealthy if any critical check is
unhealthy; else degraded if any non-critical is unhealthy; else healthy".
Used only to compare against `updateOverallStatus`, which is translated
from the code. -/
def specOverallStatus (components : List (String × Component)) : HStatus :=
  if ∃ c ∈ components, c.2.status = HStatus.unhealthy ∧ c.2.critical = true then
    HStatus.unhealthy
  else if ∃ c ∈ components, c.2.status = HStatus.unhealthy ∧ c.2.critical = false then
    HStatus.degraded
  else HStatus.healthy

end HealthChecker

/-! ## Shared association-list helpers

JavaScript `Map` objects (and plain objects used as maps) are modelled as
insertion-ordered association lists.  `setA` mirrors `Map.set`: an existing
key is updated in place, a new key is appended at the end. -/

def lookupA {α : Type} : List (String × α) → String → Option α
  | [], _ => none
  | (k', v) :: rest, k => if k' = k then some v else lookupA rest k

def setA {α : Type} : List (String × α) → String → α → List (String × α)
  | [], k, v => [(k, v)]
  | (k', v') :: rest, k, v =>
      if k' = k then (k, v) :: rest else (k', v') :: setA rest k v

theorem lookupA_setA_self {α : Type} (l : List (String × α)) (k : String) (v : α) :
    lookupA (setA l k v) k = some v := by
  induction l with
  | nil => simp [setA, lookupA]
  | cons hd tl ih =>
    by_cases h : hd.1 = k
    · simp [setA, h, lookupA]
    · cases hd with
      | mk k' v' =>
        simp only [setA]
        rw [if_neg h]
        simp only [lookupA]
        rw [if_neg h]
        exact ih

theorem lookupA_setA_ne {α : Type} (l : List (String × α)) (k k' : String) (v : α)
    (h : k' ≠ k) : lookupA (setA l k v) k' = lookupA l k' := by
  induction l with
  | nil =>
    simp only [setA, lookupA]
    rw [if_neg (fun hh => h hh.symm)]
  | cons hd tl ih =>
    cases hd with
    | mk k0 v0 =>
      by_cases h0 : k0 = k
      · subst h0
        simp only [setA, if_pos rfl, lookupA]
        rw [if_neg (fun hh => h hh.symm), if_neg (fun hh => h hh.symm)]
      · simp only [setA]
        rw [if_neg h0]
        simp only [lookupA]
        by_cases h1 : k0 = k'
        · rw [if_pos h1, if_pos h1]
        · rw [if_neg h1, if_neg h1]
          exact ih

/-! ## Dead-letter queue (src/utils/queue/DeadLetterQueue.js) -/

namespace DeadLetterQueue

/-- An original message parked in the DLQ; `id` is the identity used for the
reserved `dlq:<id>` job id, `body` stands for the rest of the payload. -/
structure Msg where
  id : String
  body : String
deriving DecidableEq, Repr

/-- The `meta` block of a DLQ record.  Fields that JavaScript may leave
`undefined` are `Option`s. -/
structure DLQMeta where
  addedAt : Option Nat
  retryCount : Option Nat
  lastRetryAt : Option Nat
  nextRetryAt : Option Nat
deriving DecidableEq, Repr

/-- The `context` block of a DLQ record. -/
structure DLQContext where
  failedAt : Option Nat
  originalQueue : Option String
  attempts : Nat
deriving DecidableEq, Repr

/-- A DLQ record (`deadLetterMessage`).  `originalMessage` is an `Option`
to model structurally invalid records. -/
structure DLQRecord where
  originalMessage : Option Msg
  errorMessage : String
  context : Option DLQContext
  meta : Option DLQMeta
deriving DecidableEq, Repr

/-- The store backing the DLQ: the dead-letter queue's jobs keyed by job id,
plus the payloads `(message, attempts)` enqueued onto every named target
queue by retries. -/
structure DLQState where
  jobs : List (String × DLQRecord)
  queues : List (String × List (Msg × Nat))
deriving DecidableEq, Repr

/-- `targetQueue.add(originalMessage, {attempts})`: append onto the named
queue, creating it on first use (`new Queue(name)`). -/
def pushQueue (queues : List (String × List (Msg × Nat))) (q : String)
    (m : Msg) (attempts : Nat) : List (String × List (Msg × Nat)) :=
  setA queues q ((lookupA queues q).getD [] ++ [(m, attempts)])

/-- `_calculateNextRetryTime`: `now + retryInterval * 2^retryCount`. -/
def calculateNextRetryTime (retryInterval now retryCount : Nat) : Nat :=
  now + retryInterval * 2 ^ retryCount

/-- `addFailedMessage(message, error, context)`: compose the DLQ record and
enqueue it under `jobId = "dlq:" + message.id`. -/
def addFailedMessage (st : DLQState) (retryInterval now : Nat) (msg : Msg)
    (err : String) (ctxQueueName : Option String) (ctxAttempts : Nat) : DLQState :=
  let record : DLQRecord :=
    { originalMessage := some msg
      errorMessage := err
      context := some { failedAt := some now, originalQueue := ctxQueueName,
                        attempts := ctxAttempts }
      meta := some { addedAt := some now, retryCount := some 0,
                     lastRetryAt := none,
                     nextRetryAt := some (calculateNextRetryTime retryInterval now 0) } }
  { st with jobs := setA st.jobs ("dlq:" ++ msg.id) record }

/-- The default `meta` filled in by `retryMessage` when the record has none:
`{ retryCount: 0 }`. -/
def defaultMeta : DLQMeta :=
  { addedAt := none, retryCount := some 0, lastRetryAt := none, nextRetryAt := none }

/-- The effective retry count `retryMessage` works with, after filling
defaults for a missing `meta` or a missing `meta.retryCount`. -/
def effRetryCount (r : DLQRecord) : Nat :=
  ((r.meta.getD defaultMeta).retryCount).getD 0

/-- The `context` after `retryMessage`'s defensive defaults: a missing
`context` or a missing `context.originalQueue` becomes `"default-queue"`. -/
def effContext (r : DLQRecord) : DLQContext :=
  match r.context with
  | none => { failedAt := none, originalQueue := some "default-queue", attempts := 0 }
  | some c =>
    match c.originalQueue with
    | none => { c with originalQueue := some "default-queue" }
    | some _ => c

/-- `retryMessage(messageId)`: load the `dlq:<id>` record, validate it,
reject once `meta.retryCount ≥ maxRetries`, otherwise bump the retry
metadata, re-enqueue the original message onto the original queue with
`attempts: 1`, persist the updated record and return `true`. -/
def retryMessage (st : DLQState) (maxRetries retryInterval now : Nat)
    (messageId : String) : Except String (Bool × DLQState) :=
  match lookupA st.jobs ("dlq:" ++ messageId) with
  | none => Except.error ("Message " ++ messageId ++ " not found in dead letter queue")
  | some record =>
    match record.originalMessage with
    | none => Except.error "Invalid dead letter message structure: missing originalMessage"
    | some originalMessage =>
      let rc := effRetryCount record
      if rc ≥ maxRetries then
        Except.ok (false, st)
      else
        let meta1 : DLQMeta :=
          { record.meta.getD defaultMeta with
            retryCount := some (rc + 1)
            lastRetryAt := some now
            nextRetryAt := some (calculateNextRetryTime retryInterval now (rc + 1)) }
        let ctx1 := effContext record
        let qname := ctx1.originalQueue.getD "default-queue"
        let record' : DLQRecord := { record with meta := some meta1, context := some ctx1 }
        Except.ok (true,
          { jobs := setA st.jobs ("dlq:" ++ messageId) record'
            queues := pushQueue st.queues qname originalMessage 1 })

end DeadLetterQueue

/-! ## Message processor (src/utils/queue/MessageProcessor.js) -/

namespace MessageProcessor

/-- A message: `id` and `type` are `Option`s because `process` guards
against their absence (JavaScript falsy also covers the empty string). -/
structure Message where
  id : Option String
  type : Option String
  attempts : Nat
deriving DecidableEq, Repr

/-- Events the processor emits. -/
inductive MPEvent where
  | processed
  | retried
  | failed
deriving DecidableEq, Repr

/-- The observable outcome of one `process(message)` call: the resolved or
rejected result, how many times the handler ran, the backoff sleeps taken,
the events emitted, and the in-flight set after completion. -/
structure ProcOut where
  result : Except String String
  invocations : Nat
  delays : List Nat
  events : List MPEvent
  inflight : List String
deriving DecidableEq, Repr

/-- JavaScript falsiness of an optional string (`undefined`/`null`/`""`). -/
def falsyStr : Option String → Bool
  | none => true
  | some s => s = ""

/-- `calculateRetryDelay(attempts)`: exponential backoff capped at 30 s. -/
def calculateRetryDelay (retryDelay attempts : Nat) : Nat :=
  min (retryDelay * 2 ^ (attempts - 1)) 30000

/-- `process(message)`.  `handlers` is the `type → handler` registry; each
handler is an oracle mapping the global invocation counter `ctr` to the
settled outcome of racing `handler(data)` against the per-message timeout
(a timeout is a rejection).  The recursion mirrors the retry path:
on failure with `attempts + 1 < maxRetries` the processor emits `retry`,
sleeps the backoff delay and recurses with the incremented attempt count;
otherwise it emits `failed` and rethrows. -/
def process (handlers : String → Option (Nat → Except String String))
    (maxRetries retryDelay : Nat) (inflight : List String)
    (msg : Message) (ctr : Nat) : ProcOut :=
  if falsyStr msg.id ∨ falsyStr msg.type then
    { result := Except.error "Invalid message format: missing id or type"
      invocations := 0, delays := [], events := [], inflight := inflight }
  else
    if msg.id.getD "" ∈ inflight then
      { result := Except.error ("Message " ++ msg.id.getD "" ++ " is already being processed")
        invocations := 0, delays := [], events := [], inflight := inflight }
    else
      match handlers (msg.type.getD "") with
      | none =>
        { result := Except.error ("No handler registered for message type: " ++
            msg.type.getD "")
          invocations := 0, delays := [], events := [], inflight := inflight }
      | some h =>
        match h ctr with
        | Except.ok v =>
          { result := Except.ok v, invocations := 1, delays := [],
            events := [MPEvent.processed], inflight := inflight }
        | Except.error e =>
          if msg.attempts + 1 < maxRetries then
            { result := (process handlers maxRetries retryDelay inflight
                { msg with attempts := msg.attempts + 1 } (ctr + 1)).result
              invocations := (process handlers maxRetries retryDelay inflight
                { msg with attempts := msg.attempts + 1 } (ctr + 1)).invocations + 1
              delays := calculateRetryDelay retryDelay (msg.attempts + 1) ::
                (process handlers maxRetries retryDelay inflight
                  { msg with attempts := msg.attempts + 1 } (ctr + 1)).delays
              events := MPEvent.retried ::
                (process handlers maxRetries retryDelay inflight
                  { msg with attempts := msg.attempts + 1 } (ctr + 1)).events
              inflight := (process handlers maxRetries retryDelay inflight
                { msg with attempts := msg.attempts + 1 } (ctr + 1)).inflight }
          else
            { result := Except.error e, invocations := 1, delays := [],
              events := [MPEvent.failed], inflight := inflight }
termination_by maxRetries - msg.attempts
decreasing_by omega

/-- Scenario S6's handler: rejects twice, then resolves with "ok"
(indexed by the global invocation counter). -/
def scenOracle : Nat → Except String String :=
  fun n => if n < 2 then Except.error "boom" else Except.ok "ok"

/-- Scenario S6's handler registry: only type `"t"` is registered. -/
def scenHandlers : String → Option (Nat → Except String String) :=
  fun t => if t = "t" then some scenOracle else none

/-- Scenario S6's message `{id:"j1", type:"t", data:{}}`. -/
def scenMsg : Message := { id := some "j1", type := some "t", attempts := 0 }

end MessageProcessor

/-! ## Alert manager (src/utils/monitoring/AlertManager.js) -/

namespace AlertManager

/-- A stored silence (`silencedAlerts` entry).  `expireAt = 0` means
permanent. -/
structure Silence where
  id : String
  name : String
  labels : List String
  createdAt : Nat
  expireAt : Nat
  silencedBy : String
deriving DecidableEq, Repr

/-- One per-notifier delivery-log entry pushed onto `alert.notifications`. -/
structure Notification where
  notifier : String
  time : Nat
  success : Bool
deriving DecidableEq, Repr

/-- An alert object as built by `alert()`. -/
structure Alert where
  id : String
  name : String
  message : String
  severity : String
  labels : List String
  status : String
  timestamp : Nat
  lastUpdated : Nat
  notifications : List Notification
deriving DecidableEq, Repr

/-- A registered notifier: its name, its `filter` predicate and the
truthiness of the value its `notify` resolves with. -/
structure Notifier where
  name : String
  filter : Alert → Bool
  notifyOk : Bool

/-- The alert-manager state: active alerts keyed by name, history (newest
first), silences, notifiers, the history bound, and a log of every actual
`notify(alert)` invocation as `(notifier name, alert id)`. -/
structure AMState where
  alerts : List (String × Alert)
  alertHistory : List Alert
  silencedAlerts : List Silence
  notifiers : List Notifier
  maxHistorySize : Nat
  notifyLog : List (String × String)

/-- `_labelMatch`: an empty match list matches everything; otherwise every
match label must appear among the alert's labels. -/
def labelMatch (alertLabels matchLabels : List String) : Bool :=
  if matchLabels = [] then true
  else matchLabels.all (fun l => alertLabels.contains l)

/-- `_isSilenced`: walk the silences in insertion order; skip silences with
a different (non-wildcard) name or non-matching labels, lazily prune
expired ones, and report silenced on the first full match.  Returns the
verdict together with the silence list after lazy pruning. -/
def isSilencedAux : List Silence → String → List String → Nat → Bool × List Silence
  | [], _, _, _ => (false, [])
  | s :: rest, name, labels, now =>
    if ¬ (s.name = name ∨ s.name = "*") then
      ((isSilencedAux rest name labels now).1,
        s :: (isSilencedAux rest name labels now).2)
    else if s.labels ≠ [] ∧ labelMatch labels s.labels = false then
      ((isSilencedAux rest name labels now).1,
        s :: (isSilencedAux rest name labels now).2)
    else if 0 < s.expireAt ∧ s.expireAt < now then
      isSilencedAux rest name labels now
    else
      (true, s :: rest)

/-- `_addToHistory`: unshift a copy, then truncate to `maxHistorySize`. -/
def addToHistory (history : List Alert) (maxHistorySize : Nat) (a : Alert) : List Alert :=
  if (a :: history).length > maxHistorySize then (a :: history).take maxHistorySize
  else a :: history

/-- Replace the first history entry whose `id` matches, if any
(`findIndex` + assignment). -/
def updateFirstById : List Alert → Alert → Option (List Alert)
  | [], _ => none
  | x :: rest, a =>
    if x.id = a.id then some (a :: rest)
    else (updateFirstById rest a).map (fun t => x :: t)

/-- `_updateAlertHistory`: update the matching entry in place, else add. -/
def updateAlertHistory (history : List Alert) (maxHistorySize : Nat) (a : Alert) :
    List Alert :=
  match updateFirstById history a with
  | some h => h
  | none => addToHistory history maxHistorySize a

/-- `_sendNotifications` without the final history update: run each
notifier whose filter passes, appending a delivery-log entry to the alert
and recording the invocation in the global log. -/
def sendNotifications (notifiers : List Notifier) (log : List (String × String))
    (a : Alert) (now : Nat) : Alert × List (String × String) :=
  notifiers.foldl
    (fun acc n =>
      if n.filter acc.1 then
        ({ acc.1 with notifications := acc.1.notifications ++
            [{ notifier := n.name, time := now, success := n.notifyOk }] },
          acc.2 ++ [(n.name, acc.1.id)])
      else acc)
    (a, log)

/-- `alert(name, message, severity, labels)`: return `null` while silenced
(with lazily pruned silences); otherwise create the alert, store it in the
active map, push it into history, fan out notifications and update the
history entry. -/
def alert (st : AMState) (now : Nat) (name message severity : String)
    (labels : List String) : Option Alert × AMState :=
  if (isSilencedAux st.silencedAlerts name labels now).1 then
    (none, { st with silencedAlerts := (isSilencedAux st.silencedAlerts name labels now).2 })
  else
    let a : Alert :=
      { id := name ++ "_" ++ toString now, name := name, message := message,
        severity := severity, labels := labels, status := "active",
        timestamp := now, lastUpdated := now, notifications := [] }
    let a2 := (sendNotifications st.notifiers st.notifyLog a now).1
    { fst := some a2
      snd :=
        { st with
          silencedAlerts := (isSilencedAux st.silencedAlerts name labels now).2
          alerts := setA st.alerts name a2
          alertHistory := updateAlertHistory
            (addToHistory st.alertHistory st.maxHistorySize a) st.maxHistorySize a2
          notifyLog := (sendNotifications st.notifiers st.notifyLog a now).2 } }

/-- A matching, unexpired silence for `(name, labels)` at time `now`. -/
def silenceMatches (s : Silence) (name : String) (labels : List String) (now : Nat) :
    Prop :=
  (s.name = name ∨ s.name = "*") ∧ (∀ l ∈ s.labels, l ∈ labels) ∧
    ¬ (0 < s.expireAt ∧ s.expireAt < now)

/-- The built-in "logger" notifier: no filter; `notify` resolves with
`undefined`, which records `success: false`. -/
def loggerNotifier : Notifier := { name := "logger", filter := fun _ => true, notifyOk := false }

/-- Example silence for the witness: `disk_full`, no labels, permanent. -/
def silWit : Silence :=
  { id := "disk_full_1", name := "disk_full", labels := [], createdAt := 1,
    expireAt := 0, silencedBy := "ops" }

/-- Example alert-manager state for the witness. -/
def stWitAM : AMState :=
  { alerts := [], alertHistory := [], silencedAlerts := [silWit],
    notifiers := [loggerNotifier], maxHistorySize := 1000, notifyLog := [] }

end AlertManager

/-! ## Stampede-protected cache (src/utils/CacheLock.js + src/utils/cache.js)

`getWithProtection` is an async function whose awaits are suspension
points.  It is embedded as a small-step machine: each task runs the body of
`getWithProtection` for one shared cache key, with one program-counter
state per await, and a scheduler interleaves the tasks.  `CacheLock.acquire`
is the atomic set-if-absent on the lock key (`tryLock`), `release` the
unconditional delete.  Values are abstracted as naturals; the fallback of
every task returns `fbVal` and the write uses `ttl` seconds. -/

namespace CacheProtection

/-- Program counter of one `getWithProtection` call: one state per await
of the source body. -/
inductive GwpPC where
  | start
  | tryLock
  | dcheck
  | runFb
  | writeKey
  | unlock (v : Nat)
  | sleeping
  | done (v : Nat)
deriving DecidableEq, Repr

/-- Shared state: the per-task program counters, the cache cell for the one
key (value and TTL), the lock cell for `lock:{cacheKey}`, the number of
`fallback()` invocations, and the sleeps taken (ms). -/
structure GwpSys where
  tasks : List GwpPC
  key : Option (Nat × Nat)
  lock : Bool
  fbCount : Nat
  sleeps : List Nat
deriving DecidableEq, Repr

/-- Replace task `i`'s program counter. -/
def setTask (s : GwpSys) (i : Nat) (pc : GwpPC) : GwpSys :=
  { s with tasks := s.tasks.set i pc }

/-- One atomic step of task `i`, following the body of
`getWithProtection`:
`start` is the initial `get` (hit returns, miss proceeds to the lock);
`tryLock` is `cacheLock.acquire` (set-if-absent, else sleep);
`dcheck` is the double-check `get` under the lock;
`runFb` invokes `fallback()`;
`writeKey` is `set(..., ttl)`;
`unlock` is the `finally` release followed by the return;
`sleeping` is the 100 ms backoff before retrying the whole operation. -/
def step (fbVal ttl : Nat) (s : GwpSys) (i : Nat) : GwpSys :=
  match s.tasks[i]? with
  | none => s
  | some pc =>
    match pc with
    | GwpPC.start =>
      match s.key with
      | some (v, _) => setTask s i (GwpPC.done v)
      | none => setTask s i GwpPC.tryLock
    | GwpPC.tryLock =>
      if s.lock then setTask s i GwpPC.sleeping
      else { setTask s i GwpPC.dcheck with lock := true }
    | GwpPC.dcheck =>
      match s.key with
      | some (v, _) => setTask s i (GwpPC.unlock v)
      | none => setTask s i GwpPC.runFb
    | GwpPC.runFb => { setTask s i GwpPC.writeKey with fbCount := s.fbCount + 1 }
    | GwpPC.writeKey =>
      { setTask s i (GwpPC.unlock fbVal) with key := some (fbVal, ttl) }
    | GwpPC.unlock v => { setTask s i (GwpPC.done v) with lock := false }
    | GwpPC.sleeping => { setTask s i GwpPC.start with sleeps := s.sleeps ++ [100] }
    | GwpPC.done _ => s

/-- Run the machine under a schedule (a list of task indices). -/
def runSched (fbVal ttl : Nat) : List Nat → GwpSys → GwpSys
  | [], s => s
  | i :: rest, s => runSched fbVal ttl rest (step fbVal ttl s i)

/-- `N` concurrent `getOrCompute` calls on a missing key with no lock held. -/
def initSys (n : Nat) : GwpSys :=
  { tasks := List.replicate n GwpPC.start, key := none, lock := false,
    fbCount := 0, sleeps := [] }

/-- A single-task system in an arbitrary environment, for the sequential
contract. -/
def oneTask (pc : GwpPC) (key : Option (Nat × Nat)) (lock : Bool)
    (fb : Nat) (sl : List Nat) : GwpSys :=
  { tasks := [pc], key := key, lock := lock, fbCount := fb, sleeps := sl }

/-- A task that has returned. -/
def isDone : GwpPC → Bool
  | GwpPC.done _ => true
  | _ => false

/-- All tasks have returned. -/
def allDone (s : GwpSys) : Bool :=
  s.tasks.all (fun pc => isDone pc)

/-- Holder states: the section of the body executed under the lock. -/
def isHolder : GwpPC → Bool
  | GwpPC.dcheck => true
  | GwpPC.runFb => true
  | GwpPC.writeKey => true
  | GwpPC.unlock _ => true
  | _ => false

/-- States reached only after the key has been written (or read back). -/
def isPostRead : GwpPC → Bool
  | GwpPC.unlock _ => true
  | GwpPC.done _ => true
  | _ => false

/-- The `writeKey` state. -/
def isWriteKey : GwpPC → Bool
  | GwpPC.writeKey => true
  | _ => false

/-- Number of tasks currently inside the lock-protected section. -/
def holders (tasks : List GwpPC) : Nat := tasks.countP (fun pc => isHolder pc)

/-- Number of tasks about to write the key. -/
def wkCount (tasks : List GwpPC) : Nat := tasks.countP (fun pc => isWriteKey pc)

/-- The inductive invariant of the stampede-protection machine: mutual
exclusion of the lock-protected section, the key only ever holds the
fallback value with the requested TTL, and the fallback count is accounted
for by the key cell plus the tasks about to write it. -/
structure Inv (fbVal ttl : Nat) (s : GwpSys) : Prop where
  lockFree : s.lock = false → holders s.tasks = 0
  holdersLe : holders s.tasks ≤ 1
  runFbKey : ∀ i : Nat, s.tasks[i]? = some GwpPC.runFb → s.key = none
  writeKeyKey : ∀ i : Nat, s.tasks[i]? = some GwpPC.writeKey → s.key = none
  fbEq : s.fbCount = (if s.key.isSome then 1 else 0) + wkCount s.tasks
  keyVal : ∀ v t, s.key = some (v, t) → v = fbVal ∧ t = ttl
  postReadKey : ∀ (i : Nat) (pc : GwpPC), s.tasks[i]? = some pc → isPostRead pc = true →
    s.key.isSome = true
  retVal : ∀ (i : Nat) (v : Nat),
    (s.tasks[i]? = some (GwpPC.done v) ∨ s.tasks[i]? = some (GwpPC.unlock v)) → v = fbVal

end CacheProtection

/-! ## Metrics collector (src/utils/monitoring/MetricsCollector.js)

Numeric metric values are embedded as integers (the claims only exercise
integral values); label dictionaries are association lists. -/

namespace Metrics

/-- Metric kind enumeration (`MetricType`). -/
inductive MetricType where
  | counter
  | gauge
  | histogram
deriving DecidableEq, Repr

/-- A histogram cell: `{sum, count, buckets}` with `buckets` keyed by the
bucket boundary. -/
structure Hist where
  sum : Int
  count : Nat
  buckets : List (Nat × Nat)
deriving DecidableEq, Repr

/-- A value cell: a plain number for counters and gauges, a `Hist` for
histograms. -/
inductive MVal where
  | num (v : Int)
  | hist (h : Hist)
deriving DecidableEq, Repr

/-- A registered metric. `name` is the prefixed full name. -/
structure Metric where
  name : String
  type : MetricType
  help : String
  labelNames : List String
  value : MVal
  labelValues : List (String × MVal)
deriving DecidableEq, Repr

/-- The collector state: registered metrics keyed by registration name,
plus the configured name prefix. -/
structure MC where
  metrics : List (String × Metric)
  namePrefix : String
deriving DecidableEq, Repr

/-- A fresh collector with the default prefix `app_`. -/
def initMC : MC := { metrics := [], namePrefix := "app_" }

/-- The fixed bucket ladder. -/
def bucketLadder : List Nat := [1, 5, 10, 25, 50, 100, 250, 500, 1000, 2500, 5000, 10000]

/-- `registerMetric(name, type, help, labelNames)`: idempotent; a new
metric starts at 0 (or an empty histogram cell). -/
def registerMetric (mc : MC) (name : String) (ty : MetricType) (help : String)
    (labelNames : List String) : MC :=
  match lookupA mc.metrics name with
  | some _ => mc
  | none =>
    { mc with metrics := mc.metrics ++ [(name,
        { name := mc.namePrefix ++ name, type := ty, help := help,
          labelNames := labelNames
          value := match ty with
            | MetricType.histogram => MVal.hist { sum := 0, count := 0, buckets := [] }
            | _ => MVal.num 0
          labelValues := [] })] }

/-- `_getLabelKey`: join `name:value` pairs (missing label values become
the empty string) in registration order with commas. -/
def getLabelKey (labels : List (String × String)) (labelNames : List String) : String :=
  String.intercalate ","
    (labelNames.map (fun n => n ++ ":" ++ ((lookupA labels n).getD "")))

/-- Split a character list on a separator character (the semantics of the
JavaScript `String.split` with a one-character separator). -/
def splitChar (ch : Char) : List Char → List (List Char)
  | [] => [[]]
  | c :: cs =>
    match splitChar ch cs with
    | [] => [[]]
    | hd :: tl => if c = ch then [] :: hd :: tl else (c :: hd) :: tl

/-- `String.split(sep)` for a one-character separator. -/
def splitString (ch : Char) (s : String) : List String :=
  (splitChar ch s.data).map (fun cs => String.mk cs)

/-- `_parseLabelKey`: split a label key back into a label dictionary. -/
def parseLabelKey (labelKey : String) : List (String × String) :=
  (splitString ',' labelKey).filterMap (fun part =>
    match splitString ':' part with
    | [] => none
    | n :: rest => if n = "" then none else some (n, rest.headD ""))

/-- Increment the counter for one bucket boundary (`buckets[b] = (… || 0) + 1`). -/
def bumpBucket (bs : List (Nat × Nat)) (b : Nat) : List (Nat × Nat) :=
  match bs with
  | [] => [(b, 1)]
  | (b', c) :: rest => if b' = b then (b', c + 1) :: rest else (b', c) :: bumpBucket rest b

/-- One histogram observation on a cell: add to `sum`, bump `count`, and
bump every ladder bucket whose boundary is at least the value. -/
def observeCell (h : Hist) (v : Int) : Hist :=
  { sum := h.sum + v
    count := h.count + 1
    buckets := bucketLadder.foldl
      (fun bs b => if v ≤ Int.ofNat b then bumpBucket bs b else bs) h.buckets }

/-- Read a numeric cell with the JavaScript `|| 0` default. -/
def numOf : MVal → Int
  | MVal.num v => v
  | MVal.hist _ => 0

/-- Read a histogram cell, defaulting to the empty cell. -/
def histOf : MVal → Hist
  | MVal.hist h => h
  | MVal.num _ => { sum := 0, count := 0, buckets := [] }

/-- Update one metric entry in place. -/
def updateMetric (mc : MC) (name : String) (f : Metric → Metric) : MC :=
  { mc with metrics := mc.metrics.map (fun e => if e.1 = name then (e.1, f e.2) else e) }

/-- Accumulate onto a labelled counter cell (`setMetric`, counter branch:
`(current || 0) + value`). -/
def counterCellUpd (labelKey : String) (v : Int) (m : Metric) : Metric :=
  { m with labelValues := (setA m.labelValues labelKey
      (MVal.num (numOf ((lookupA m.labelValues labelKey).getD (MVal.num 0)) + v))) }

/-- Assign a labelled gauge cell (`setMetric`, gauge branch). -/
def gaugeCellUpd (labelKey : String) (v : Int) (m : Metric) : Metric :=
  { m with labelValues := setA m.labelValues labelKey (MVal.num v) }

/-- Observe into a labelled histogram cell (`setMetric`, histogram branch). -/
def histCellUpd (labelKey : String) (v : Int) (m : Metric) : Metric :=
  { m with labelValues := (setA m.labelValues labelKey
      (MVal.hist (observeCell
        (histOf ((lookupA m.labelValues labelKey).getD
          (MVal.hist { sum := 0, count := 0, buckets := [] }))) v))) }

/-- Accumulate onto a plain counter cell. -/
def counterPlainUpd (v : Int) (m : Metric) : Metric :=
  { m with value := MVal.num (numOf m.value + v) }

/-- Assign the plain gauge cell. -/
def gaugePlainUpd (v : Int) (m : Metric) : Metric :=
  { m with value := MVal.num v }

/-- Observe into the plain histogram cell. -/
def histPlainUpd (v : Int) (m : Metric) : Metric :=
  { m with value := MVal.hist (observeCell (histOf m.value) v) }

/-- `setMetric(name, value, labels)`: unknown metrics warn and drop; a
negative value on a counter warns and drops; counters accumulate, gauges
assign, histograms observe — on the labelled cell when the metric has
label names, else on the plain cell. -/
def setMetric (mc : MC) (name : String) (v : Int) (labels : List (String × String)) : MC :=
  match lookupA mc.metrics name with
  | none => mc
  | some m =>
    if m.labelNames ≠ [] then
      match m.type with
      | MetricType.counter =>
        if v < 0 then mc
        else updateMetric mc name (counterCellUpd (getLabelKey labels m.labelNames) v)
      | MetricType.gauge =>
        updateMetric mc name (gaugeCellUpd (getLabelKey labels m.labelNames) v)
      | MetricType.histogram =>
        updateMetric mc name (histCellUpd (getLabelKey labels m.labelNames) v)
    else
      match m.type with
      | MetricType.counter =>
        if v < 0 then mc
        else updateMetric mc name (counterPlainUpd v)
      | MetricType.gauge => updateMetric mc name (gaugePlainUpd v)
      | MetricType.histogram => updateMetric mc name (histPlainUpd v)

/-- `incrementCounter(name, increment, labels)`: only counters; delegates
to `setMetric`. -/
def incrementCounter (mc : MC) (name : String) (increment : Int)
    (labels : List (String × String)) : MC :=
  match lookupA mc.metrics name with
  | none => mc
  | some m =>
    if m.type ≠ MetricType.counter then mc
    else setMetric mc name increment labels

/-- One snapshot entry of `getMetrics()`. -/
structure SnapshotEntry where
  name : String
  type : MetricType
  help : String
  labelNames : List String
  value : Option MVal
  values : List (List (String × String) × MVal)
deriving DecidableEq, Repr

/-- `getMetrics()`: the per-metric snapshot; label-less metrics expose
`value`, labelled metrics expose `values` with parsed label dictionaries. -/
def getMetrics (mc : MC) : List SnapshotEntry :=
  mc.metrics.map (fun e =>
    if e.2.labelNames = [] then
      { name := e.2.name, type := e.2.type, help := e.2.help,
        labelNames := e.2.labelNames, value := some e.2.value, values := [] }
    else
      { name := e.2.name, type := e.2.type, help := e.2.help,
        labelNames := e.2.labelNames, value := none,
        values := e.2.labelValues.map (fun lv => (parseLabelKey lv.1, lv.2)) })

/-- Text for a metric kind. -/
def typeText : MetricType → String
  | MetricType.counter => "counter"
  | MetricType.gauge => "gauge"
  | MetricType.histogram => "histogram"

/-- Text for a numeric cell. -/
def valText : MVal → String
  | MVal.num v => toString v
  | MVal.hist _ => "0"

/-- Render `k="v"` pairs joined by commas. -/
def labelText (labels : List (String × String)) : String :=
  String.intercalate "," (labels.map (fun kv => kv.1 ++ "=\"" ++ kv.2 ++ "\""))

/-- The lines `exportPrometheusMetrics` emits for one metric. -/
def renderMetricLines (m : Metric) : List String :=
  ["# HELP " ++ m.name ++ " " ++ m.help,
   "# TYPE " ++ m.name ++ " " ++ typeText m.type] ++
  (if m.labelNames = [] then
    match m.type with
    | MetricType.histogram =>
      [m.name ++ "_sum " ++ toString (histOf m.value).sum,
       m.name ++ "_count " ++ toString (histOf m.value).count] ++
      (histOf m.value).buckets.map (fun bc =>
        m.name ++ "_bucket\x7ble=\"" ++ toString bc.1 ++ "\"\x7d " ++ toString bc.2) ++
      [m.name ++ "_bucket\x7ble=\"+Inf\"\x7d " ++ toString (histOf m.value).count]
    | _ => [m.name ++ " " ++ valText m.value]
  else
    m.labelValues.flatMap (fun lv =>
      let ls := labelText (parseLabelKey lv.1)
      match m.type with
      | MetricType.histogram =>
        [m.name ++ "_sum\x7b" ++ ls ++ "\x7d " ++ toString (histOf lv.2).sum,
         m.name ++ "_count\x7b" ++ ls ++ "\x7d " ++ toString (histOf lv.2).count] ++
        (histOf lv.2).buckets.map (fun bc =>
          m.name ++ "_bucket\x7b" ++ ls ++ ",le=\"" ++ toString bc.1 ++ "\"\x7d " ++
            toString bc.2) ++
        [m.name ++ "_bucket\x7b" ++ ls ++ ",le=\"+Inf\"\x7d " ++
          toString (histOf lv.2).count]
      | _ => [m.name ++ "\x7b" ++ ls ++ "\x7d " ++ valText lv.2]))

/-- `exportPrometheusMetrics()` as its list of lines (the source joins
them with a newline). -/
def exportPrometheusLines (mc : MC) : List String :=
  mc.metrics.flatMap (fun e => renderMetricLines e.2)

/-- Read a bucket counter (`buckets[b] || 0`). -/
def bucketGet : List (Nat × Nat) → Nat → Nat
  | [], _ => 0
  | (b', c) :: rest, b => if b' = b then c else bucketGet rest b

/-- An operation against the collector, for sequences of updates. -/
inductive MOp where
  | reg (name : String) (ty : MetricType) (help : String) (labelNames : List String)
  | set (name : String) (v : Int) (labels : List (String × String))
  | inc (name : String) (v : Int) (labels : List (String × String))

/-- Apply one operation. -/
def applyOp (mc : MC) : MOp → MC
  | MOp.reg n t h ln => registerMetric mc n t h ln
  | MOp.set n v ls => setMetric mc n v ls
  | MOp.inc n v ls => incrementCounter mc n v ls

/-- The value `getMetric` exposes for a counter: the plain cell, or the
labelled cell under a given label key (absent cells read as 0). -/
def counterRead (mc : MC) (name : String) (okey : Option String) : Int :=
  match lookupA mc.metrics name with
  | none => 0
  | some m =>
    match okey with
    | none => numOf m.value
    | some k => numOf ((lookupA m.labelValues k).getD (MVal.num 0))

/-- Well-formedness: every counter cell (plain or labelled) is
non-negative. -/
def WF (mc : MC) : Prop :=
  ∀ name m, lookupA mc.metrics name = some m → m.type = MetricType.counter →
    0 ≤ numOf m.value ∧ ∀ k mv, lookupA m.labelValues k = some mv → 0 ≤ numOf mv

/-- Scenario S1 state: register `http_requests[method,status]`, set
GET/200 by 1 twice and POST/201 by 1 once. -/
def mcS1 : MC :=
  setMetric (setMetric (setMetric
    (registerMetric initMC "http_requests" MetricType.counter "Total requests"
      ["method", "status"])
    "http_requests" 1 [("method", "GET"), ("status", "200")])
    "http_requests" 1 [("method", "GET"), ("status", "200")])
    "http_requests" 1 [("method", "POST"), ("status", "201")]

/-- The S1 registration state, before any `set`. -/
def mcReg : MC :=
  registerMetric initMC "http_requests" MetricType.counter "Total requests"
    ["method", "status"]

/-- A collector holding one registered label-less histogram. -/
def mcH0 : MC := registerMetric initMC "req_time" MetricType.histogram "Request time" []

end Metrics

/-! ## Concrete example states used by witnesses -/

namespace DeadLetterQueue

/-- Example record for the retry witness: retryCount 0, from queue "orders". -/
def recWit : DLQRecord :=
  { originalMessage := some { id := "m1", body := "b" }
    errorMessage := "boom"
    context := some { failedAt := some 1, originalQueue := some "orders", attempts := 2 }
    meta := some { addedAt := some 1, retryCount := some 0, lastRetryAt := none,
                   nextRetryAt := none } }

/-- Example DLQ state holding `recWit` under `dlq:m1`. -/
def stWit : DLQState := { jobs := [("dlq:m1", recWit)], queues := [] }

end DeadLetterQueue

/-! ## Claim theorems: C1 -/

/-- Claim C1: health aggregation truth table.  For every set of registered
checks and every labelling of component statuses (including components left
in `unknown` or `degraded` state), `_updateOverallStatus` computes exactly
the §3 verdict: unhealthy if any critical check is unhealthy, else degraded
if any non-critical check is unhealthy, else healthy; after `checkAll()` the
registry-level status is that verdict of the refreshed components; and the
status is `unknown` before any check has run. -/
theorem health_aggregation_truth_table :
    (∀ components, HealthChecker.updateOverallStatus components =
        HealthChecker.specOverallStatus components) ∧
    (∀ st outcomes, (HealthChecker.checkAll st outcomes).status =
        HealthChecker.specOverallStatus (HealthChecker.checkAll st outcomes).components) ∧
    HealthChecker.initState.status = HealthChecker.HStatus.unknown := by
  have key : ∀ components, HealthChecker.updateOverallStatus components =
      HealthChecker.specOverallStatus components := by
    intro components
    have e1 : (components.any
        (fun c => c.2.status = HealthChecker.HStatus.unhealthy ∧ c.2.critical) = true) ↔
        (∃ c ∈ components,
          c.2.status = HealthChecker.HStatus.unhealthy ∧ c.2.critical = true) := by
      simp [List.any_eq_true]
    have e2 : (components.any
        (fun c => c.2.status = HealthChecker.HStatus.unhealthy ∧ ¬ c.2.critical) = true) ↔
        (∃ c ∈ components,
          c.2.status = HealthChecker.HStatus.unhealthy ∧ c.2.critical = false) := by
      simp [List.any_eq_true]
    unfold HealthChecker.updateOverallStatus HealthChecker.specOverallStatus
    by_cases h1 : ∃ c ∈ components,
        c.2.status = HealthChecker.HStatus.unhealthy ∧ c.2.critical = true
    · rw [if_pos (e1.mpr h1), if_pos h1]
    · rw [if_neg (fun h => h1 (e1.mp h)), if_neg h1]
      by_cases h2 : ∃ c ∈ components,
          c.2.status = HealthChecker.HStatus.unhealthy ∧ c.2.critical = false
      · rw [if_pos (e2.mpr h2), if_pos h2]
      · rw [if_neg (fun h => h2 (e2.mp h)), if_neg h2]
  refine ⟨key, ?_, rfl⟩
  intro st outcomes
  exact key _


/-! ## Claim theorems: C2 -/

/-- Unfolding of `retryMessage` at a structurally valid stored record. -/
theorem DeadLetterQueue.retryMessage_found
    (st : DeadLetterQueue.DLQState) (maxRetries retryInterval now : Nat)
    (id : String) (r : DeadLetterQueue.DLQRecord) (m : DeadLetterQueue.Msg)
    (hlook : lookupA st.jobs ("dlq:" ++ id) = some r)
    (hmsg : r.originalMessage = some m) :
    DeadLetterQueue.retryMessage st maxRetries retryInterval now id =
      if maxRetries ≤ DeadLetterQueue.effRetryCount r then Except.ok (false, st)
      else Except.ok (true,
        { jobs := setA st.jobs ("dlq:" ++ id)
            { r with
              meta := some { r.meta.getD DeadLetterQueue.defaultMeta with
                retryCount := some (DeadLetterQueue.effRetryCount r + 1)
                lastRetryAt := some now
                nextRetryAt := some (DeadLetterQueue.calculateNextRetryTime
                  retryInterval now (DeadLetterQueue.effRetryCount r + 1)) }
              context := some (DeadLetterQueue.effContext r) }
          queues := DeadLetterQueue.pushQueue st.queues
            ((DeadLetterQueue.effContext r).originalQueue.getD "default-queue") m 1 }) := by
  simp only [DeadLetterQueue.retryMessage, hlook, hmsg, ge_iff_le]

/-- `retryMessage` at a record whose retry count has reached the cap:
returns `false` with no state change. -/
theorem DeadLetterQueue.retryMessage_capped
    (st : DeadLetterQueue.DLQState) (maxRetries retryInterval now : Nat)
    (id : String) (r : DeadLetterQueue.DLQRecord) (m : DeadLetterQueue.Msg)
    (hlook : lookupA st.jobs ("dlq:" ++ id) = some r)
    (hmsg : r.originalMessage = some m)
    (hcap : maxRetries ≤ DeadLetterQueue.effRetryCount r) :
    DeadLetterQueue.retryMessage st maxRetries retryInterval now id =
      Except.ok (false, st) := by
  rw [DeadLetterQueue.retryMessage_found st maxRetries retryInterval now id r m hlook hmsg,
    if_pos hcap]

/-- Claim C2: DLQ bounded retry.  For a stored dead-letter record whose
effective `meta.retryCount` is at least `maxRetries`, `retryMessage`
returns `false` and leaves the store and every queue untouched; below the
cap it increments the retry metadata, re-enqueues the original message onto
the (default-filled) original queue with `attempts: 1`, persists the
updated record and returns `true`; and once the stored count reaches
`maxRetries`, a further `retryMessage` re-enqueues nothing. -/
theorem dlq_bounded_retry
    (st : DeadLetterQueue.DLQState) (maxRetries retryInterval now : Nat)
    (id : String) (r : DeadLetterQueue.DLQRecord) (m : DeadLetterQueue.Msg)
    (hlook : lookupA st.jobs ("dlq:" ++ id) = some r)
    (hmsg : r.originalMessage = some m) :
    (maxRetries ≤ DeadLetterQueue.effRetryCount r →
      DeadLetterQueue.retryMessage st maxRetries retryInterval now id =
        Except.ok (false, st)) ∧
    (DeadLetterQueue.effRetryCount r < maxRetries →
      DeadLetterQueue.retryMessage st maxRetries retryInterval now id =
        Except.ok (true,
          { jobs := setA st.jobs ("dlq:" ++ id)
              { r with
                meta := some { r.meta.getD DeadLetterQueue.defaultMeta with
                  retryCount := some (DeadLetterQueue.effRetryCount r + 1)
                  lastRetryAt := some now
                  nextRetryAt := some (DeadLetterQueue.calculateNextRetryTime
                    retryInterval now (DeadLetterQueue.effRetryCount r + 1)) }
                context := some (DeadLetterQueue.effContext r) }
            queues := DeadLetterQueue.pushQueue st.queues
              ((DeadLetterQueue.effContext r).originalQueue.getD "default-queue") m 1 }) ∧
      (DeadLetterQueue.effRetryCount r + 1 = maxRetries →
        ∀ st', DeadLetterQueue.retryMessage st maxRetries retryInterval now id =
            Except.ok (true, st') →
          DeadLetterQueue.retryMessage st' maxRetries retryInterval now id =
            Except.ok (false, st'))) := by
  have hstep := DeadLetterQueue.retryMessage_found st maxRetries retryInterval now id r m
    hlook hmsg
  constructor
  · intro hcap
    rw [hstep, if_pos hcap]
  · intro hlt
    have hnc : ¬ maxRetries ≤ DeadLetterQueue.effRetryCount r := by omega
    have hres := hstep.trans (if_neg hnc)
    refine ⟨hres, ?_⟩
    intro hreach st' hprev
    have hpair := Except.ok.inj (hres.symm.trans hprev)
    have hst' : st' = _ := ((Prod.mk.injEq _ _ _ _).mp hpair.symm).2
    subst hst'
    exact DeadLetterQueue.retryMessage_capped
      { jobs := setA st.jobs ("dlq:" ++ id)
          { r with
            meta := some { r.meta.getD DeadLetterQueue.defaultMeta with
              retryCount := some (DeadLetterQueue.effRetryCount r + 1)
              lastRetryAt := some now
              nextRetryAt := some (DeadLetterQueue.calculateNextRetryTime
                retryInterval now (DeadLetterQueue.effRetryCount r + 1)) }
            context := some (DeadLetterQueue.effContext r) }
        queues := DeadLetterQueue.pushQueue st.queues
          ((DeadLetterQueue.effContext r).originalQueue.getD "default-queue") m 1 }
      maxRetries retryInterval now id
      { r with
        meta := some { r.meta.getD DeadLetterQueue.defaultMeta with
          retryCount := some (DeadLetterQueue.effRetryCount r + 1)
          lastRetryAt := some now
          nextRetryAt := some (DeadLetterQueue.calculateNextRetryTime
            retryInterval now (DeadLetterQueue.effRetryCount r + 1)) }
        context := some (DeadLetterQueue.effContext r) } m
      (lookupA_setA_self _ _ _) hmsg (le_of_eq hreach.symm)

/-- Witness for C2: a concrete record below the cap is re-enqueued onto
`"orders"` with `attempts: 1` and its retry count becomes 1. -/
theorem dlq_bounded_retry_witness :
    DeadLetterQueue.retryMessage DeadLetterQueue.stWit 3 1000 5 "m1" =
      Except.ok (true,
        { jobs := [("dlq:m1",
            { originalMessage := some { id := "m1", body := "b" }
              errorMessage := "boom"
              context := some { failedAt := some 1, originalQueue := some "orders",
                                attempts := 2 }
              meta := some { addedAt := some 1, retryCount := some 1,
                             lastRetryAt := some 5, nextRetryAt := some 2005 } })]
          queues := [("orders", [({ id := "m1", body := "b" }, 1)])] }) := by
  have h := (dlq_bounded_retry DeadLetterQueue.stWit 3 1000 5 "m1"
    DeadLetterQueue.recWit { id := "m1", body := "b" } (by decide) rfl).2 (by decide)
  exact h.1.trans (by decide)

/-! ## Claim theorems: C3 -/

/-- Helper: every terminating run of `process` restores the in-flight set. -/
theorem MessageProcessor.process_inflight
    (handlers : String → Option (Nat → Except String String))
    (maxRetries retryDelay : Nat) (inflight : List String)
    (msg : MessageProcessor.Message) (ctr : Nat) :
    (MessageProcessor.process handlers maxRetries retryDelay inflight msg ctr).inflight =
      inflight := by
  rw [MessageProcessor.process]
  by_cases h1 : MessageProcessor.falsyStr msg.id = true ∨
      MessageProcessor.falsyStr msg.type = true
  · rw [if_pos h1]
  · rw [if_neg h1]
    by_cases h2 : msg.id.getD "" ∈ inflight
    · rw [if_pos h2]
    · rw [if_neg h2]
      cases hh : handlers (msg.type.getD "") with
      | none => simp [hh]
      | some h =>
        simp only [hh]
        cases hr : h ctr with
        | ok v => simp [hr]
        | error e =>
          simp only [hr]
          by_cases h3 : msg.attempts + 1 < maxRetries
          · rw [if_pos h3]
            exact MessageProcessor.process_inflight handlers maxRetries retryDelay
              inflight { msg with attempts := msg.attempts + 1 } (ctr + 1)
          · rw [if_neg h3]
termination_by maxRetries - msg.attempts
decreasing_by omega

/-- Helper: behaviour of `process` when the handler keeps failing for `j`
invocations and then succeeds, all within the retry budget. -/
theorem MessageProcessor.process_retry_spec
    (handlers : String → Option (Nat → Except String String))
    (maxRetries retryDelay : Nat) (inflight : List String)
    (h : Nat → Except String String) (j : Nat) :
    ∀ (msg : MessageProcessor.Message) (ctr : Nat) (v : String),
      MessageProcessor.falsyStr msg.id = false →
      MessageProcessor.falsyStr msg.type = false →
      msg.id.getD "" ∉ inflight →
      handlers (msg.type.getD "") = some h →
      (∀ i, i < j → ∃ e, h (ctr + i) = Except.error e) →
      h (ctr + j) = Except.ok v →
      msg.attempts + j + 1 ≤ maxRetries →
      MessageProcessor.process handlers maxRetries retryDelay inflight msg ctr =
        { result := Except.ok v, invocations := j + 1,
          delays := (List.range j).map
            (fun i => MessageProcessor.calculateRetryDelay retryDelay (msg.attempts + 1 + i)),
          events := List.replicate j MessageProcessor.MPEvent.retried ++
            [MessageProcessor.MPEvent.processed],
          inflight := inflight } := by
  induction j with
  | zero =>
    intro msg ctr v hid hty hmem hreg _ hok _
    rw [MessageProcessor.process]
    rw [if_neg (by simp [hid, hty])]
    rw [if_neg hmem]
    rw [Nat.add_zero] at hok
    simp [hreg, hok]
  | succ j ih =>
    intro msg ctr v hid hty hmem hreg hfail hok hbound
    obtain ⟨e, he⟩ := hfail 0 (Nat.succ_pos j)
    rw [Nat.add_zero] at he
    rw [MessageProcessor.process]
    rw [if_neg (by simp [hid, hty])]
    rw [if_neg hmem]
    simp only [hreg, he]
    rw [if_pos (by omega)]
    have hrec := ih { msg with attempts := msg.attempts + 1 } (ctr + 1) v hid hty hmem hreg
      (fun i hi => by
        obtain ⟨e', he'⟩ := hfail (i + 1) (by omega)
        refine ⟨e', ?_⟩
        rw [← he']
        ring_nf)
      (by rw [← hok]; ring_nf)
      (by simp only []; omega)
    rw [hrec]
    dsimp only
    have hdel : (List.range (j + 1)).map
        (fun i => MessageProcessor.calculateRetryDelay retryDelay (msg.attempts + 1 + i)) =
        MessageProcessor.calculateRetryDelay retryDelay (msg.attempts + 1) ::
        (List.range j).map
          (fun i => MessageProcessor.calculateRetryDelay retryDelay
            (msg.attempts + 1 + 1 + i)) := by
      rw [List.range_succ_eq_map, List.map_cons, List.map_map, Nat.add_zero]
      refine congrArg _ (List.map_congr_left ?_)
      intro i _
      simp only [Function.comp_apply]
      refine congrArg _ ?_
      omega
    have hev : List.replicate (j + 1) MessageProcessor.MPEvent.retried ++
        [MessageProcessor.MPEvent.processed] =
        MessageProcessor.MPEvent.retried ::
        (List.replicate j MessageProcessor.MPEvent.retried ++
          [MessageProcessor.MPEvent.processed]) := by
      rw [List.replicate_succ, List.cons_append]
    rw [hdel, hev]

/-- Claim C3: message-processor bounded retry with exponential backoff.
When the registered handler fails (or times out) with the attempt count
below `maxRetries`, the processor sleeps
`min(retryDelay·2^(attempts-1), 30000)` ms, emits `retry` and recurses with
the incremented attempt count — so a handler failing `j` times before
succeeding yields the success result after `j` backoff sleeps and `j+1`
invocations; at the cap it emits `failed` and rethrows.  In particular,
with `maxRetries = 3`, `retryDelay = 100` and a handler that rejects twice
then resolves `"ok"`, `process` resolves to `"ok"` with 3 handler
invocations and sleeps `[100, 200]`. -/
theorem mp_bounded_retry_exponential_backoff
    (handlers : String → Option (Nat → Except String String))
    (maxRetries retryDelay : Nat) (inflight : List String)
    (msg : MessageProcessor.Message) (ctr : Nat)
    (h : Nat → Except String String)
    (hid : MessageProcessor.falsyStr msg.id = false)
    (hty : MessageProcessor.falsyStr msg.type = false)
    (hmem : msg.id.getD "" ∉ inflight)
    (hreg : handlers (msg.type.getD "") = some h) :
    (∀ j v, (∀ i, i < j → ∃ e, h (ctr + i) = Except.error e) →
      h (ctr + j) = Except.ok v → msg.attempts + j + 1 ≤ maxRetries →
      MessageProcessor.process handlers maxRetries retryDelay inflight msg ctr =
        { result := Except.ok v, invocations := j + 1,
          delays := (List.range j).map
            (fun i => MessageProcessor.calculateRetryDelay retryDelay (msg.attempts + 1 + i)),
          events := List.replicate j MessageProcessor.MPEvent.retried ++
            [MessageProcessor.MPEvent.processed],
          inflight := inflight }) ∧
    (∀ e, h ctr = Except.error e → ¬ msg.attempts + 1 < maxRetries →
      MessageProcessor.process handlers maxRetries retryDelay inflight msg ctr =
        { result := Except.error e, invocations := 1, delays := [],
          events := [MessageProcessor.MPEvent.failed], inflight := inflight }) ∧
    (MessageProcessor.process MessageProcessor.scenHandlers 3 100 []
        MessageProcessor.scenMsg 0 =
      { result := Except.ok "ok", invocations := 3, delays := [100, 200],
        events := [MessageProcessor.MPEvent.retried, MessageProcessor.MPEvent.retried,
          MessageProcessor.MPEvent.processed],
        inflight := [] }) := by
  refine ⟨?_, ?_, ?_⟩
  · intro j v hfail hok hbound
    exact MessageProcessor.process_retry_spec handlers maxRetries retryDelay inflight h j
      msg ctr v hid hty hmem hreg hfail hok hbound
  · intro e he hcap
    rw [MessageProcessor.process]
    rw [if_neg (by simp [hid, hty])]
    rw [if_neg hmem]
    simp only [hreg, he]
    rw [if_neg hcap]
  · have hs := MessageProcessor.process_retry_spec MessageProcessor.scenHandlers 3 100 []
      MessageProcessor.scenOracle 2 MessageProcessor.scenMsg 0 "ok" rfl rfl
      (by simp)
      rfl
      (fun i hi => ⟨"boom", by
        simp only [MessageProcessor.scenOracle]
        rw [if_pos (by omega)]⟩)
      rfl
      (by decide)
    exact hs.trans (by decide)

/-- Witness for C3: the S6 scenario run concretely through the theorem. -/
theorem mp_bounded_retry_exponential_backoff_witness :
    MessageProcessor.process MessageProcessor.scenHandlers 3 100 []
        MessageProcessor.scenMsg 0 =
      { result := Except.ok "ok", invocations := 3, delays := [100, 200],
        events := [MessageProcessor.MPEvent.retried, MessageProcessor.MPEvent.retried,
          MessageProcessor.MPEvent.processed],
        inflight := [] } :=
  (mp_bounded_retry_exponential_backoff MessageProcessor.scenHandlers 3 100 []
    MessageProcessor.scenMsg 0 MessageProcessor.scenOracle rfl rfl (by simp) rfl).2.2

/-! ## Claim theorems: C10 -/

/-- Claim C10: precondition failures are atomic in the message processor.
A message missing `id` or `type` (JavaScript-falsy), or whose type has no
registered handler, makes `process` throw immediately: no handler
invocation, no retry/failed event, no backoff sleep, and the in-flight set
is left unchanged — so a later `process` of the same id is not rejected as
a duplicate and can succeed normally. -/
theorem mp_precondition_atomicity
    (handlers : String → Option (Nat → Except String String))
    (maxRetries retryDelay : Nat) (inflight : List String)
    (msg : MessageProcessor.Message) (ctr : Nat) :
    (MessageProcessor.falsyStr msg.id = true ∨ MessageProcessor.falsyStr msg.type = true →
      MessageProcessor.process handlers maxRetries retryDelay inflight msg ctr =
        { result := Except.error "Invalid message format: missing id or type"
          invocations := 0, delays := [], events := [], inflight := inflight }) ∧
    (MessageProcessor.falsyStr msg.id = false → MessageProcessor.falsyStr msg.type = false →
      msg.id.getD "" ∉ inflight → handlers (msg.type.getD "") = none →
      MessageProcessor.process handlers maxRetries retryDelay inflight msg ctr =
        { result := Except.error ("No handler registered for message type: " ++
            msg.type.getD "")
          invocations := 0, delays := [], events := [], inflight := inflight }) ∧
    ((MessageProcessor.process handlers maxRetries retryDelay inflight msg ctr).inflight =
      inflight) ∧
    (∀ (handlers2 : String → Option (Nat → Except String String))
        (msg2 : MessageProcessor.Message) (ctr2 : Nat)
        (h2 : Nat → Except String String) (v : String),
      MessageProcessor.falsyStr msg2.id = false →
      MessageProcessor.falsyStr msg2.type = false →
      msg2.id = msg.id → msg2.id.getD "" ∉ inflight →
      handlers2 (msg2.type.getD "") = some h2 → h2 ctr2 = Except.ok v →
      MessageProcessor.process handlers2 maxRetries retryDelay
        ((MessageProcessor.process handlers maxRetries retryDelay inflight msg ctr).inflight)
        msg2 ctr2 =
        { result := Except.ok v, invocations := 1, delays := [],
          events := [MessageProcessor.MPEvent.processed], inflight := inflight }) := by
  refine ⟨?_, ?_, ?_, ?_⟩
  · intro hcase
    rw [MessageProcessor.process, if_pos hcase]
  · intro hid hty hmem hnone
    rw [MessageProcessor.process]
    rw [if_neg (by simp [hid, hty])]
    rw [if_neg hmem]
    simp [hnone]
  · exact MessageProcessor.process_inflight handlers maxRetries retryDelay inflight msg ctr
  · intro handlers2 msg2 ctr2 h2 v hid2 hty2 _ hmem2 hreg2 hok2
    rw [MessageProcessor.process_inflight handlers maxRetries retryDelay inflight msg ctr]
    rw [MessageProcessor.process]
    rw [if_neg (by simp [hid2, hty2])]
    rw [if_neg hmem2]
    simp [hreg2, hok2]

/-- Witness for C10: a message with a missing id throws the invalid-format
error with zero handler invocations, and the very same id still processes
fine afterwards. -/
theorem mp_precondition_atomicity_witness :
    MessageProcessor.process MessageProcessor.scenHandlers 3 100 []
        { id := none, type := some "t", attempts := 0 } 0 =
      { result := Except.error "Invalid message format: missing id or type"
        invocations := 0, delays := [], events := [], inflight := [] } :=
  (mp_precondition_atomicity MessageProcessor.scenHandlers 3 100 []
    { id := none, type := some "t", attempts := 0 } 0).1 (Or.inl rfl)

/-! ## Claim theorems: C4 -/

/-- If some stored silence fully matches `(name, labels)` and is unexpired,
`_isSilenced` reports silenced. -/
theorem AlertManager.isSilencedAux_true (l : List AlertManager.Silence)
    (name : String) (labels : List String) (now : Nat)
    (h : ∃ s ∈ l, AlertManager.silenceMatches s name labels now) :
    (AlertManager.isSilencedAux l name labels now).1 = true := by
  induction l with
  | nil =>
    obtain ⟨t, hmem, _⟩ := h
    exact absurd hmem (List.not_mem_nil t)
  | cons s rest ih =>
    obtain ⟨t, hmem, hmatch⟩ := h
    rw [AlertManager.isSilencedAux]
    by_cases h1 : ¬ (s.name = name ∨ s.name = "*")
    · rw [if_pos h1]
      refine ih ⟨t, ?_, hmatch⟩
      rcases List.mem_cons.mp hmem with heq | hrest
      · exact absurd (heq ▸ hmatch.1) h1
      · exact hrest
    · rw [if_neg h1]
      by_cases h2 : s.labels ≠ [] ∧ AlertManager.labelMatch labels s.labels = false
      · rw [if_pos h2]
        refine ih ⟨t, ?_, hmatch⟩
        rcases List.mem_cons.mp hmem with heq | hrest
        · subst heq
          have hlm : AlertManager.labelMatch labels t.labels = true := by
            unfold AlertManager.labelMatch
            by_cases hsl : t.labels = []
            · rw [if_pos hsl]
            · rw [if_neg hsl, List.all_eq_true]
              intro x hx
              simpa using hmatch.2.1 x hx
          rw [hlm] at h2
          exact absurd h2.2 (by simp)
        · exact hrest
      · rw [if_neg h2]
        by_cases h3 : 0 < s.expireAt ∧ s.expireAt < now
        · rw [if_pos h3]
          refine ih ⟨t, ?_, hmatch⟩
          rcases List.mem_cons.mp hmem with heq | hrest
          · exact absurd (heq ▸ h3) hmatch.2.2
          · exact hrest
        · rw [if_neg h3]

/-- Claim C4: silence-then-raise.  With an unexpired silence whose name
equals the alert's name (or is the wildcard) and whose labels all appear in
the alert's labels, `alert(name, message, severity, labels)` returns
`null`, invokes no notifier, adds no entry to the active-alert map, and
leaves the history untouched. -/
theorem silence_then_raise
    (st : AlertManager.AMState) (now : Nat) (name message severity : String)
    (labels : List String) (s : AlertManager.Silence)
    (hmem : s ∈ st.silencedAlerts)
    (hname : s.name = name ∨ s.name = "*")
    (hlab : ∀ l ∈ s.labels, l ∈ labels)
    (hexp : ¬ (0 < s.expireAt ∧ s.expireAt < now)) :
    (AlertManager.alert st now name message severity labels).1 = none ∧
    ((AlertManager.alert st now name message severity labels).2).alerts = st.alerts ∧
    ((AlertManager.alert st now name message severity labels).2).notifyLog =
      st.notifyLog ∧
    ((AlertManager.alert st now name message severity labels).2).alertHistory =
      st.alertHistory := by
  have hsil := AlertManager.isSilencedAux_true st.silencedAlerts name labels now
    ⟨s, hmem, hname, hlab, hexp⟩
  rw [AlertManager.alert, if_pos hsil]
  exact ⟨rfl, rfl, rfl, rfl⟩

/-- Witness for C4: the S3 scenario — a permanent silence on `disk_full`
with no labels blocks `alert("disk_full","full","error",["node1"])`. -/
theorem silence_then_raise_witness :
    (AlertManager.alert AlertManager.stWitAM 10 "disk_full" "full" "error" ["node1"]).1 =
      none ∧
    ((AlertManager.alert AlertManager.stWitAM 10 "disk_full" "full" "error"
      ["node1"]).2).alerts = [] ∧
    ((AlertManager.alert AlertManager.stWitAM 10 "disk_full" "full" "error"
      ["node1"]).2).notifyLog = [] ∧
    ((AlertManager.alert AlertManager.stWitAM 10 "disk_full" "full" "error"
      ["node1"]).2).alertHistory = [] :=
  silence_then_raise AlertManager.stWitAM 10 "disk_full" "full" "error" ["node1"]
    AlertManager.silWit (by simp [AlertManager.stWitAM]) (Or.inl rfl)
    (by simp [AlertManager.silWit]) (by simp [AlertManager.silWit])

/-! ## Claim theorems: C5 -/

/-- Running a concatenated schedule runs the pieces in order. -/
theorem CacheProtection.runSched_append (fbVal ttl : Nat) (l1 l2 : List Nat)
    (s : CacheProtection.GwpSys) :
    CacheProtection.runSched fbVal ttl (l1 ++ l2) s =
      CacheProtection.runSched fbVal ttl l2 (CacheProtection.runSched fbVal ttl l1 s) := by
  induction l1 generalizing s with
  | nil => rfl
  | cons i rest ih =>
    simp only [List.cons_append, CacheProtection.runSched]
    exact ih _

/-- A returned single-task system is a fixed point of the scheduler. -/
theorem CacheProtection.runSched_done (fbVal ttl n v : Nat)
    (key : Option (Nat × Nat)) (lock : Bool) (fb : Nat) (sl : List Nat) :
    CacheProtection.runSched fbVal ttl (List.replicate n 0)
      (CacheProtection.oneTask (CacheProtection.GwpPC.done v) key lock fb sl) =
      CacheProtection.oneTask (CacheProtection.GwpPC.done v) key lock fb sl := by
  induction n with
  | zero => rfl
  | succ n ih =>
    rw [List.replicate_succ, CacheProtection.runSched]
    exact ih

set_option maxHeartbeats 1600000 in
/-- Claim C5: the sequential contract of `getWithProtection`, read off the
per-await machine for a single caller.  (1) A present key returns the
cached value with no fallback invocation and no state change.  (2) On a
miss with the lock free, the caller acquires the lock, double-checks,
runs `fallback()` exactly once, writes the value with the requested TTL,
releases the lock and returns the value.  (3) If the lock is not acquired,
the caller sleeps 100 ms and retries the whole operation from the initial
`get`.  (4)–(6) The double-check under the lock returns a concurrently
filled value without invoking `fallback`, and only a still-absent key
reaches `fallback()`, which is what increments the invocation count. -/
theorem getwithprotection_sequential_contract (fbVal ttl : Nat) :
    (∀ (v t fb : Nat) (lk : Bool) (sl : List Nat) (n : Nat),
      CacheProtection.runSched fbVal ttl (List.replicate (n + 1) 0)
          (CacheProtection.oneTask CacheProtection.GwpPC.start (some (v, t)) lk fb sl) =
        CacheProtection.oneTask (CacheProtection.GwpPC.done v) (some (v, t)) lk fb sl) ∧
    (∀ (fb : Nat) (sl : List Nat) (n : Nat),
      CacheProtection.runSched fbVal ttl (List.replicate (n + 6) 0)
          (CacheProtection.oneTask CacheProtection.GwpPC.start none false fb sl) =
        CacheProtection.oneTask (CacheProtection.GwpPC.done fbVal) (some (fbVal, ttl))
          false (fb + 1) sl) ∧
    (∀ (fb : Nat) (sl : List Nat),
      CacheProtection.runSched fbVal ttl (List.replicate 3 0)
          (CacheProtection.oneTask CacheProtection.GwpPC.start none true fb sl) =
        CacheProtection.oneTask CacheProtection.GwpPC.start none true fb (sl ++ [100])) ∧
    (∀ (v t fb : Nat) (sl : List Nat),
      CacheProtection.step fbVal ttl
          (CacheProtection.oneTask CacheProtection.GwpPC.dcheck (some (v, t)) true fb sl) 0 =
        CacheProtection.oneTask (CacheProtection.GwpPC.unlock v) (some (v, t)) true fb sl) ∧
    (∀ (fb : Nat) (sl : List Nat),
      CacheProtection.step fbVal ttl
          (CacheProtection.oneTask CacheProtection.GwpPC.dcheck none true fb sl) 0 =
        CacheProtection.oneTask CacheProtection.GwpPC.runFb none true fb sl) ∧
    (∀ (fb : Nat) (sl : List Nat),
      CacheProtection.step fbVal ttl
          (CacheProtection.oneTask CacheProtection.GwpPC.runFb none true fb sl) 0 =
        CacheProtection.oneTask CacheProtection.GwpPC.writeKey none true (fb + 1) sl) := by
  refine ⟨?_, ?_, ?_, ?_, ?_, ?_⟩
  · intro v t fb lk sl n
    rw [List.replicate_succ, CacheProtection.runSched]
    exact CacheProtection.runSched_done fbVal ttl n v (some (v, t)) lk fb sl
  · intro fb sl n
    rw [Nat.add_comm n 6, List.replicate_add, CacheProtection.runSched_append]
    exact CacheProtection.runSched_done fbVal ttl n fbVal (some (fbVal, ttl)) false (fb + 1) sl
  · intro fb sl
    rfl
  · intro v t fb sl
    rfl
  · intro fb sl
    rfl
  · intro fb sl
    rfl

/-! ## Claim theorems: C6 -/

/-- Setting an occupied slot succeeds. -/
theorem getElem?_set_self_of {α : Type} (l : List α) (i : Nat) (x y : α)
    (h : l[i]? = some x) : (l.set i y)[i]? = some y := by
  have hlt : i < l.length := by
    by_contra hlt
    rw [List.getElem?_eq_none (by omega)] at h
    cases h
  exact List.getElem?_set_eq_of_lt y hlt

/-- How `countP` changes when one occupied slot is overwritten. -/
theorem countP_set_elem {α : Type} (p : α → Bool) :
    ∀ (l : List α) (i : Nat) (x y : α), l[i]? = some x →
      (l.set i y).countP p + (if p x then 1 else 0) =
        l.countP p + (if p y then 1 else 0)
  | [], i, x, y, h => by simp at h
  | a :: tl, 0, x, y, h => by
    simp only [List.getElem?_cons_zero, Option.some.injEq] at h
    subst h
    simp only [List.set_cons_zero, List.countP_cons]
    omega
  | a :: tl, i + 1, x, y, h => by
    simp only [List.getElem?_cons_succ] at h
    simp only [List.set_cons_succ, List.countP_cons]
    have hres := countP_set_elem p tl i x y h
    omega

/-- An occupied slot satisfying `p` contributes to `countP`. -/
theorem one_le_countP {α : Type} (p : α → Bool) :
    ∀ (l : List α) (i : Nat) (x : α), l[i]? = some x → p x = true → 1 ≤ l.countP p
  | [], i, x, h, _ => by simp at h
  | a :: tl, 0, x, h, hx => by
    simp only [List.getElem?_cons_zero, Option.some.injEq] at h
    subst h
    rw [List.countP_cons, hx, if_pos rfl]
    omega
  | a :: tl, i + 1, x, h, hx => by
    simp only [List.getElem?_cons_succ] at h
    simp only [List.countP_cons]
    have hres := one_le_countP p tl i x h hx
    omega

/-- Two distinct occupied slots satisfying `p` push `countP` to at least 2. -/
theorem two_le_countP {α : Type} (p : α → Bool) :
    ∀ (l : List α) (i j : Nat) (x y : α), i ≠ j → l[i]? = some x → l[j]? = some y →
      p x = true → p y = true → 2 ≤ l.countP p
  | [], _, _, _, _, _, h, _, _, _ => by simp at h
  | _ :: _, 0, 0, _, _, hij, _, _, _, _ => absurd rfl hij
  | a :: tl, 0, j + 1, x, y, _, hi, hj, hx, hy => by
    simp only [List.getElem?_cons_zero, Option.some.injEq] at hi
    subst hi
    simp only [List.getElem?_cons_succ] at hj
    rw [List.countP_cons, hx, if_pos rfl]
    have hres := one_le_countP p tl j y hj hy
    omega
  | a :: tl, i + 1, 0, x, y, _, hi, hj, hx, hy => by
    simp only [List.getElem?_cons_zero, Option.some.injEq] at hj
    subst hj
    simp only [List.getElem?_cons_succ] at hi
    rw [List.countP_cons, hy, if_pos rfl]
    have hres := one_le_countP p tl i x hi hx
    omega
  | a :: tl, i + 1, j + 1, x, y, hij, hi, hj, hx, hy => by
    simp only [List.getElem?_cons_succ] at hi hj
    simp only [List.countP_cons]
    have hres := two_le_countP p tl i j x y (by omega) hi hj hx hy
    omega

/-- Invariant preservation for steps that only replace task `i`'s program
counter (key, lock and fallback count unchanged; sleeps arbitrary). -/
theorem CacheProtection.inv_swap (fbVal ttl : Nat) (s : CacheProtection.GwpSys) (i : Nat)
    (pc pc' : CacheProtection.GwpPC)
    (hpc : s.tasks[i]? = some pc)
    (hinv : CacheProtection.Inv fbVal ttl s)
    (hhold : CacheProtection.isHolder pc' = CacheProtection.isHolder pc)
    (hwk : CacheProtection.isWriteKey pc' = CacheProtection.isWriteKey pc)
    (hrf : pc' = CacheProtection.GwpPC.runFb → s.key = none)
    (hwkk : pc' = CacheProtection.GwpPC.writeKey → s.key = none)
    (hpr : CacheProtection.isPostRead pc' = true → s.key.isSome = true)
    (hrv : ∀ v, pc' = CacheProtection.GwpPC.done v ∨ pc' = CacheProtection.GwpPC.unlock v →
      v = fbVal)
    (sl : List Nat) :
    CacheProtection.Inv fbVal ttl
      { tasks := s.tasks.set i pc', key := s.key, lock := s.lock,
        fbCount := s.fbCount, sleeps := sl } := by
  have hH : CacheProtection.holders (s.tasks.set i pc') =
      CacheProtection.holders s.tasks := by
    have hc := countP_set_elem (fun x => CacheProtection.isHolder x) s.tasks i pc pc' hpc
    simp only [hhold] at hc
    unfold CacheProtection.holders
    omega
  have hW : CacheProtection.wkCount (s.tasks.set i pc') =
      CacheProtection.wkCount s.tasks := by
    have hc := countP_set_elem (fun x => CacheProtection.isWriteKey x) s.tasks i pc pc' hpc
    simp only [hwk] at hc
    unfold CacheProtection.wkCount
    omega
  refine ⟨?_, ?_, ?_, ?_, ?_, ?_, ?_, ?_⟩
  · intro h
    show CacheProtection.holders (s.tasks.set i pc') = 0
    rw [hH]
    exact hinv.lockFree h
  · show CacheProtection.holders (s.tasks.set i pc') ≤ 1
    rw [hH]
    exact hinv.holdersLe
  · intro j hj
    have hj' : (s.tasks.set i pc')[j]? = some CacheProtection.GwpPC.runFb := hj
    show s.key = none
    by_cases hij : i = j
    · subst hij
      rw [getElem?_set_self_of s.tasks i pc pc' hpc] at hj'
      exact hrf (Option.some.inj hj')
    · rw [List.getElem?_set_ne hij] at hj'
      exact hinv.runFbKey j hj'
  · intro j hj
    have hj' : (s.tasks.set i pc')[j]? = some CacheProtection.GwpPC.writeKey := hj
    show s.key = none
    by_cases hij : i = j
    · subst hij
      rw [getElem?_set_self_of s.tasks i pc pc' hpc] at hj'
      exact hwkk (Option.some.inj hj')
    · rw [List.getElem?_set_ne hij] at hj'
      exact hinv.writeKeyKey j hj'
  · show s.fbCount = (if s.key.isSome then 1 else 0) +
      CacheProtection.wkCount (s.tasks.set i pc')
    rw [hW]
    exact hinv.fbEq
  · intro v t h
    exact hinv.keyVal v t h
  · intro j pcj hj hprj
    have hj' : (s.tasks.set i pc')[j]? = some pcj := hj
    show s.key.isSome = true
    by_cases hij : i = j
    · subst hij
      rw [getElem?_set_self_of s.tasks i pc pc' hpc] at hj'
      exact hpr ((Option.some.inj hj') ▸ hprj)
    · rw [List.getElem?_set_ne hij] at hj'
      exact hinv.postReadKey j pcj hj' hprj
  · intro j v hor
    by_cases hij : i = j
    · subst hij
      rcases hor with h1 | h1
      · have h1' : (s.tasks.set i pc')[i]? = some (CacheProtection.GwpPC.done v) := h1
        rw [getElem?_set_self_of s.tasks i pc pc' hpc] at h1'
        exact hrv v (Or.inl (Option.some.inj h1'))
      · have h1' : (s.tasks.set i pc')[i]? = some (CacheProtection.GwpPC.unlock v) := h1
        rw [getElem?_set_self_of s.tasks i pc pc' hpc] at h1'
        exact hrv v (Or.inr (Option.some.inj h1'))
    · rcases hor with h1 | h1
      · have h1' : (s.tasks.set i pc')[j]? = some (CacheProtection.GwpPC.done v) := h1
        rw [List.getElem?_set_ne hij] at h1'
        exact hinv.retVal j v (Or.inl h1')
      · have h1' : (s.tasks.set i pc')[j]? = some (CacheProtection.GwpPC.unlock v) := h1
        rw [List.getElem?_set_ne hij] at h1'
        exact hinv.retVal j v (Or.inr h1')

/-- `countP_set_elem` with the two contributions given as literals. -/
theorem countP_set_elem' {α : Type} (p : α → Bool) (l : List α) (i : Nat) (x y : α)
    (h : l[i]? = some x) (cx cy : Nat) (hx : (if p x then 1 else 0) = cx)
    (hy : (if p y then 1 else 0) = cy) :
    (l.set i y).countP p + cx = l.countP p + cy := by
  rw [← hx, ← hy]
  exact countP_set_elem p l i x y h

/-- Every scheduler step preserves the stampede-protection invariant. -/
theorem CacheProtection.step_preserves (fbVal ttl : Nat) (s : CacheProtection.GwpSys)
    (i : Nat) (hinv : CacheProtection.Inv fbVal ttl s) :
    CacheProtection.Inv fbVal ttl (CacheProtection.step fbVal ttl s i) := by
  unfold CacheProtection.step
  cases hpc : s.tasks[i]? with
  | none => exact hinv
  | some pc =>
    cases pc with
    | start =>
      cases hk : s.key with
      | none =>
        exact CacheProtection.inv_swap fbVal ttl s i CacheProtection.GwpPC.start
          CacheProtection.GwpPC.tryLock hpc hinv rfl rfl
          (fun h => CacheProtection.GwpPC.noConfusion h)
          (fun h => CacheProtection.GwpPC.noConfusion h)
          (fun h => Bool.noConfusion h)
          (fun v hv => by rcases hv with h | h <;> exact CacheProtection.GwpPC.noConfusion h)
          s.sleeps
      | some vt =>
        obtain ⟨v, t⟩ := vt
        exact CacheProtection.inv_swap fbVal ttl s i CacheProtection.GwpPC.start
          (CacheProtection.GwpPC.done v) hpc hinv rfl rfl
          (fun h => CacheProtection.GwpPC.noConfusion h)
          (fun h => CacheProtection.GwpPC.noConfusion h)
          (fun _ => by rw [hk]; rfl)
          (fun w hw => by
            rcases hw with h | h
            · have hwv : w = v := by
                cases h
                rfl
              exact hwv ▸ (hinv.keyVal v t hk).1
            · exact CacheProtection.GwpPC.noConfusion h)
          s.sleeps
    | tryLock =>
      by_cases hl : s.lock = true
      · rw [if_pos hl]
        exact CacheProtection.inv_swap fbVal ttl s i CacheProtection.GwpPC.tryLock
          CacheProtection.GwpPC.sleeping hpc hinv rfl rfl
          (fun h => CacheProtection.GwpPC.noConfusion h)
          (fun h => CacheProtection.GwpPC.noConfusion h)
          (fun h => Bool.noConfusion h)
          (fun v hv => by rcases hv with h | h <;> exact CacheProtection.GwpPC.noConfusion h)
          s.sleeps
      · rw [if_neg hl]
        have hlf : s.lock = false := by
          cases hb : s.lock
          · rfl
          · exact absurd hb hl
        have h0 := hinv.lockFree hlf
        have hc := countP_set_elem' (fun x => CacheProtection.isHolder x) s.tasks i
          CacheProtection.GwpPC.tryLock CacheProtection.GwpPC.dcheck hpc 0 1 rfl rfl
        have hw := countP_set_elem' (fun x => CacheProtection.isWriteKey x) s.tasks i
          CacheProtection.GwpPC.tryLock CacheProtection.GwpPC.dcheck hpc 0 0 rfl rfl
        refine ⟨?_, ?_, ?_, ?_, ?_, ?_, ?_, ?_⟩
        · intro h
          exact Bool.noConfusion h
        · show CacheProtection.holders (s.tasks.set i CacheProtection.GwpPC.dcheck) ≤ 1
          unfold CacheProtection.holders at h0 ⊢
          omega
        · intro j hj
          have hj' : (s.tasks.set i CacheProtection.GwpPC.dcheck)[j]? =
              some CacheProtection.GwpPC.runFb := hj
          show s.key = none
          by_cases hij : i = j
          · subst hij
            rw [getElem?_set_self_of s.tasks i _ _ hpc] at hj'
            exact CacheProtection.GwpPC.noConfusion (Option.some.inj hj')
          · rw [List.getElem?_set_ne hij] at hj'
            exact hinv.runFbKey j hj'
        · intro j hj
          have hj' : (s.tasks.set i CacheProtection.GwpPC.dcheck)[j]? =
              some CacheProtection.GwpPC.writeKey := hj
          show s.key = none
          by_cases hij : i = j
          · subst hij
            rw [getElem?_set_self_of s.tasks i _ _ hpc] at hj'
            exact CacheProtection.GwpPC.noConfusion (Option.some.inj hj')
          · rw [List.getElem?_set_ne hij] at hj'
            exact hinv.writeKeyKey j hj'
        · show s.fbCount = (if s.key.isSome then 1 else 0) +
            CacheProtection.wkCount (s.tasks.set i CacheProtection.GwpPC.dcheck)
          have hfb := hinv.fbEq
          unfold CacheProtection.wkCount at hfb ⊢
          omega
        · intro v t h
          exact hinv.keyVal v t h
        · intro j pcj hj hprj
          have hj' : (s.tasks.set i CacheProtection.GwpPC.dcheck)[j]? = some pcj := hj
          show s.key.isSome = true
          by_cases hij : i = j
          · subst hij
            rw [getElem?_set_self_of s.tasks i _ _ hpc] at hj'
            rw [← Option.some.inj hj'] at hprj
            exact Bool.noConfusion hprj
          · rw [List.getElem?_set_ne hij] at hj'
            exact hinv.postReadKey j pcj hj' hprj
        · intro j v hor
          by_cases hij : i = j
          · subst hij
            rcases hor with h1 | h1
            · have h1' : (s.tasks.set i CacheProtection.GwpPC.dcheck)[i]? =
                  some (CacheProtection.GwpPC.done v) := h1
              rw [getElem?_set_self_of s.tasks i _ _ hpc] at h1'
              exact CacheProtection.GwpPC.noConfusion (Option.some.inj h1')
            · have h1' : (s.tasks.set i CacheProtection.GwpPC.dcheck)[i]? =
                  some (CacheProtection.GwpPC.unlock v) := h1
              rw [getElem?_set_self_of s.tasks i _ _ hpc] at h1'
              exact CacheProtection.GwpPC.noConfusion (Option.some.inj h1')
          · rcases hor with h1 | h1
            · have h1' : (s.tasks.set i CacheProtection.GwpPC.dcheck)[j]? =
                  some (CacheProtection.GwpPC.done v) := h1
              rw [List.getElem?_set_ne hij] at h1'
              exact hinv.retVal j v (Or.inl h1')
            · have h1' : (s.tasks.set i CacheProtection.GwpPC.dcheck)[j]? =
                  some (CacheProtection.GwpPC.unlock v) := h1
              rw [List.getElem?_set_ne hij] at h1'
              exact hinv.retVal j v (Or.inr h1')
    | dcheck =>
      cases hk : s.key with
      | none =>
        exact CacheProtection.inv_swap fbVal ttl s i CacheProtection.GwpPC.dcheck
          CacheProtection.GwpPC.runFb hpc hinv rfl rfl
          (fun _ => hk)
          (fun h => CacheProtection.GwpPC.noConfusion h)
          (fun h => Bool.noConfusion h)
          (fun v hv => by rcases hv with h | h <;> exact CacheProtection.GwpPC.noConfusion h)
          s.sleeps
      | some vt =>
        obtain ⟨v, t⟩ := vt
        exact CacheProtection.inv_swap fbVal ttl s i CacheProtection.GwpPC.dcheck
          (CacheProtection.GwpPC.unlock v) hpc hinv rfl rfl
          (fun h => CacheProtection.GwpPC.noConfusion h)
          (fun h => CacheProtection.GwpPC.noConfusion h)
          (fun _ => by rw [hk]; rfl)
          (fun w hw => by
            rcases hw with h | h
            · exact CacheProtection.GwpPC.noConfusion h
            · have hwv : w = v := by
                cases h
                rfl
              exact hwv ▸ (hinv.keyVal v t hk).1)
          s.sleeps
    | runFb =>
      have hkeynone : s.key = none := hinv.runFbKey i hpc
      have hc := countP_set_elem' (fun x => CacheProtection.isHolder x) s.tasks i
        CacheProtection.GwpPC.runFb CacheProtection.GwpPC.writeKey hpc 1 1 rfl rfl
      have hw := countP_set_elem' (fun x => CacheProtection.isWriteKey x) s.tasks i
        CacheProtection.GwpPC.runFb CacheProtection.GwpPC.writeKey hpc 0 1 rfl rfl
      refine ⟨?_, ?_, ?_, ?_, ?_, ?_, ?_, ?_⟩
      · intro h
        have h0 := hinv.lockFree h
        show CacheProtection.holders (s.tasks.set i CacheProtection.GwpPC.writeKey) = 0
        unfold CacheProtection.holders at h0 ⊢
        omega
      · show CacheProtection.holders (s.tasks.set i CacheProtection.GwpPC.writeKey) ≤ 1
        have h0 := hinv.holdersLe
        unfold CacheProtection.holders at h0 ⊢
        omega
      · intro j hj
        have hj' : (s.tasks.set i CacheProtection.GwpPC.writeKey)[j]? =
            some CacheProtection.GwpPC.runFb := hj
        show s.key = none
        by_cases hij : i = j
        · subst hij
          rw [getElem?_set_self_of s.tasks i _ _ hpc] at hj'
          exact CacheProtection.GwpPC.noConfusion (Option.some.inj hj')
        · rw [List.getElem?_set_ne hij] at hj'
          exact hinv.runFbKey j hj'
      · intro j hj
        exact hkeynone
      · show s.fbCount + 1 = (if s.key.isSome then 1 else 0) +
          CacheProtection.wkCount (s.tasks.set i CacheProtection.GwpPC.writeKey)
        have hfb := hinv.fbEq
        have hz : (if (none : Option (Nat × Nat)).isSome then 1 else 0) = 0 := rfl
        rw [hkeynone] at hfb ⊢
        rw [hz] at hfb ⊢
        unfold CacheProtection.wkCount at hfb ⊢
        omega
      · intro v t h
        exact hinv.keyVal v t h
      · intro j pcj hj hprj
        have hj' : (s.tasks.set i CacheProtection.GwpPC.writeKey)[j]? = some pcj := hj
        show s.key.isSome = true
        by_cases hij : i = j
        · subst hij
          rw [getElem?_set_self_of s.tasks i _ _ hpc] at hj'
          rw [← Option.some.inj hj'] at hprj
          exact Bool.noConfusion hprj
        · rw [List.getElem?_set_ne hij] at hj'
          exact hinv.postReadKey j pcj hj' hprj
      · intro j v hor
        by_cases hij : i = j
        · subst hij
          rcases hor with h1 | h1
          · have h1' : (s.tasks.set i CacheProtection.GwpPC.writeKey)[i]? =
                some (CacheProtection.GwpPC.done v) := h1
            rw [getElem?_set_self_of s.tasks i _ _ hpc] at h1'
            exact CacheProtection.GwpPC.noConfusion (Option.some.inj h1')
          · have h1' : (s.tasks.set i CacheProtection.GwpPC.writeKey)[i]? =
                some (CacheProtection.GwpPC.unlock v) := h1
            rw [getElem?_set_self_of s.tasks i _ _ hpc] at h1'
            exact CacheProtection.GwpPC.noConfusion (Option.some.inj h1')
        · rcases hor with h1 | h1
          · have h1' : (s.tasks.set i CacheProtection.GwpPC.writeKey)[j]? =
                some (CacheProtection.GwpPC.done v) := h1
            rw [List.getElem?_set_ne hij] at h1'
            exact hinv.retVal j v (Or.inl h1')
          · have h1' : (s.tasks.set i CacheProtection.GwpPC.writeKey)[j]? =
                some (CacheProtection.GwpPC.unlock v) := h1
            rw [List.getElem?_set_ne hij] at h1'
            exact hinv.retVal j v (Or.inr h1')
    | writeKey =>
      have hkeynone : s.key = none := hinv.writeKeyKey i hpc
      have hc := countP_set_elem' (fun x => CacheProtection.isHolder x) s.tasks i
        CacheProtection.GwpPC.writeKey (CacheProtection.GwpPC.unlock fbVal) hpc 1 1 rfl rfl
      have hw := countP_set_elem' (fun x => CacheProtection.isWriteKey x) s.tasks i
        CacheProtection.GwpPC.writeKey (CacheProtection.GwpPC.unlock fbVal) hpc 1 0 rfl rfl
      refine ⟨?_, ?_, ?_, ?_, ?_, ?_, ?_, ?_⟩
      · intro h
        have h0 := hinv.lockFree h
        show CacheProtection.holders
          (s.tasks.set i (CacheProtection.GwpPC.unlock fbVal)) = 0
        unfold CacheProtection.holders at h0 ⊢
        omega
      · show CacheProtection.holders
          (s.tasks.set i (CacheProtection.GwpPC.unlock fbVal)) ≤ 1
        have h0 := hinv.holdersLe
        unfold CacheProtection.holders at h0 ⊢
        omega
      · intro j hj
        have hj' : (s.tasks.set i (CacheProtection.GwpPC.unlock fbVal))[j]? =
            some CacheProtection.GwpPC.runFb := hj
        exfalso
        by_cases hij : i = j
        · subst hij
          rw [getElem?_set_self_of s.tasks i _ _ hpc] at hj'
          exact CacheProtection.GwpPC.noConfusion (Option.some.inj hj')
        · rw [List.getElem?_set_ne hij] at hj'
          have h2 := two_le_countP (fun x => CacheProtection.isHolder x) s.tasks j i
            CacheProtection.GwpPC.runFb CacheProtection.GwpPC.writeKey
            (fun hh => hij hh.symm) hj' hpc rfl rfl
          have h0 := hinv.holdersLe
          unfold CacheProtection.holders at h0
          omega
      · intro j hj
        have hj' : (s.tasks.set i (CacheProtection.GwpPC.unlock fbVal))[j]? =
            some CacheProtection.GwpPC.writeKey := hj
        exfalso
        by_cases hij : i = j
        · subst hij
          rw [getElem?_set_self_of s.tasks i _ _ hpc] at hj'
          exact CacheProtection.GwpPC.noConfusion (Option.some.inj hj')
        · rw [List.getElem?_set_ne hij] at hj'
          have h2 := two_le_countP (fun x => CacheProtection.isHolder x) s.tasks j i
            CacheProtection.GwpPC.writeKey CacheProtection.GwpPC.writeKey
            (fun hh => hij hh.symm) hj' hpc rfl rfl
          have h0 := hinv.holdersLe
          unfold CacheProtection.holders at h0
          omega
      · show s.fbCount = (if (some (fbVal, ttl)).isSome then 1 else 0) +
          CacheProtection.wkCount (s.tasks.set i (CacheProtection.GwpPC.unlock fbVal))
        have hfb := hinv.fbEq
        have hz : (if (none : Option (Nat × Nat)).isSome then 1 else 0) = 0 := rfl
        have ho : (if (some (fbVal, ttl) : Option (Nat × Nat)).isSome then 1 else 0) = 1 := rfl
        rw [hkeynone, hz] at hfb
        rw [ho]
        unfold CacheProtection.wkCount at hfb ⊢
        omega
      · intro v t h
        have hvt := Option.some.inj h
        exact ⟨(congrArg Prod.fst hvt).symm, (congrArg Prod.snd hvt).symm⟩
      · intro j pcj hj hprj
        rfl
      · intro j v hor
        by_cases hij : i = j
        · subst hij
          rcases hor with h1 | h1
          · have h1' : (s.tasks.set i (CacheProtection.GwpPC.unlock fbVal))[i]? =
                some (CacheProtection.GwpPC.done v) := h1
            rw [getElem?_set_self_of s.tasks i _ _ hpc] at h1'
            exact CacheProtection.GwpPC.noConfusion (Option.some.inj h1')
          · have h1' : (s.tasks.set i (CacheProtection.GwpPC.unlock fbVal))[i]? =
                some (CacheProtection.GwpPC.unlock v) := h1
            rw [getElem?_set_self_of s.tasks i _ _ hpc] at h1'
            have := Option.some.inj h1'
            cases this
            rfl
        · rcases hor with h1 | h1
          · have h1' : (s.tasks.set i (CacheProtection.GwpPC.unlock fbVal))[j]? =
                some (CacheProtection.GwpPC.done v) := h1
            rw [List.getElem?_set_ne hij] at h1'
            exact hinv.retVal j v (Or.inl h1')
          · have h1' : (s.tasks.set i (CacheProtection.GwpPC.unlock fbVal))[j]? =
                some (CacheProtection.GwpPC.unlock v) := h1
            rw [List.getElem?_set_ne hij] at h1'
            exact hinv.retVal j v (Or.inr h1')
    | unlock v =>
      have h1 := one_le_countP (fun x => CacheProtection.isHolder x) s.tasks i
        (CacheProtection.GwpPC.unlock v) hpc rfl
      have hc := countP_set_elem' (fun x => CacheProtection.isHolder x) s.tasks i
        (CacheProtection.GwpPC.unlock v) (CacheProtection.GwpPC.done v) hpc 1 0 rfl rfl
      have hw := countP_set_elem' (fun x => CacheProtection.isWriteKey x) s.tasks i
        (CacheProtection.GwpPC.unlock v) (CacheProtection.GwpPC.done v) hpc 0 0 rfl rfl
      have h0 := hinv.holdersLe
      refine ⟨?_, ?_, ?_, ?_, ?_, ?_, ?_, ?_⟩
      · intro _
        show CacheProtection.holders (s.tasks.set i (CacheProtection.GwpPC.done v)) = 0
        unfold CacheProtection.holders at h0 ⊢
        omega
      · show CacheProtection.holders (s.tasks.set i (CacheProtection.GwpPC.done v)) ≤ 1
        unfold CacheProtection.holders at h0 ⊢
        omega
      · intro j hj
        have hj' : (s.tasks.set i (CacheProtection.GwpPC.done v))[j]? =
            some CacheProtection.GwpPC.runFb := hj
        show s.key = none
        by_cases hij : i = j
        · subst hij
          rw [getElem?_set_self_of s.tasks i _ _ hpc] at hj'
          exact CacheProtection.GwpPC.noConfusion (Option.some.inj hj')
        · rw [List.getElem?_set_ne hij] at hj'
          exact hinv.runFbKey j hj'
      · intro j hj
        have hj' : (s.tasks.set i (CacheProtection.GwpPC.done v))[j]? =
            some CacheProtection.GwpPC.writeKey := hj
        show s.key = none
        by_cases hij : i = j
        · subst hij
          rw [getElem?_set_self_of s.tasks i _ _ hpc] at hj'
          exact CacheProtection.GwpPC.noConfusion (Option.some.inj hj')
        · rw [List.getElem?_set_ne hij] at hj'
          exact hinv.writeKeyKey j hj'
      · show s.fbCount = (if s.key.isSome then 1 else 0) +
          CacheProtection.wkCount (s.tasks.set i (CacheProtection.GwpPC.done v))
        have hfb := hinv.fbEq
        unfold CacheProtection.wkCount at hfb ⊢
        omega
      · intro w t h
        exact hinv.keyVal w t h
      · intro j pcj hj hprj
        have hj' : (s.tasks.set i (CacheProtection.GwpPC.done v))[j]? = some pcj := hj
        show s.key.isSome = true
        by_cases hij : i = j
        · subst hij
          exact hinv.postReadKey i (CacheProtection.GwpPC.unlock v) hpc rfl
        · rw [List.getElem?_set_ne hij] at hj'
          exact hinv.postReadKey j pcj hj' hprj
      · intro j w hor
        by_cases hij : i = j
        · subst hij
          rcases hor with hh | hh
          · have h1' : (s.tasks.set i (CacheProtection.GwpPC.done v))[i]? =
                some (CacheProtection.GwpPC.done w) := hh
            rw [getElem?_set_self_of s.tasks i _ _ hpc] at h1'
            have hwv : w = v := by
              cases Option.some.inj h1'
              rfl
            exact hwv ▸ hinv.retVal i v (Or.inr hpc)
          · have h1' : (s.tasks.set i (CacheProtection.GwpPC.done v))[i]? =
                some (CacheProtection.GwpPC.unlock w) := hh
            rw [getElem?_set_self_of s.tasks i _ _ hpc] at h1'
            exact CacheProtection.GwpPC.noConfusion (Option.some.inj h1')
        · rcases hor with hh | hh
          · have h1' : (s.tasks.set i (CacheProtection.GwpPC.done v))[j]? =
                some (CacheProtection.GwpPC.done w) := hh
            rw [List.getElem?_set_ne hij] at h1'
            exact hinv.retVal j w (Or.inl h1')
          · have h1' : (s.tasks.set i (CacheProtection.GwpPC.done v))[j]? =
                some (CacheProtection.GwpPC.unlock w) := hh
            rw [List.getElem?_set_ne hij] at h1'
            exact hinv.retVal j w (Or.inr h1')
    | sleeping =>
      exact CacheProtection.inv_swap fbVal ttl s i CacheProtection.GwpPC.sleeping
        CacheProtection.GwpPC.start hpc hinv rfl rfl
        (fun h => CacheProtection.GwpPC.noConfusion h)
        (fun h => CacheProtection.GwpPC.noConfusion h)
        (fun h => Bool.noConfusion h)
        (fun v hv => by rcases hv with h | h <;> exact CacheProtection.GwpPC.noConfusion h)
        (s.sleeps ++ [100])
    | done v => exact hinv

/-- The invariant holds in the initial state. -/
theorem CacheProtection.inv_init (fbVal ttl n : Nat) :
    CacheProtection.Inv fbVal ttl (CacheProtection.initSys n) := by
  have hrep : ∀ (j : Nat) (pc : CacheProtection.GwpPC),
      (List.replicate n CacheProtection.GwpPC.start)[j]? = some pc →
      pc = CacheProtection.GwpPC.start := by
    intro j pc hj
    exact List.eq_of_mem_replicate (List.getElem?_mem hj)
  have h0 : CacheProtection.holders (List.replicate n CacheProtection.GwpPC.start) = 0 := by
    unfold CacheProtection.holders
    rw [List.countP_eq_zero]
    intro a ha
    rw [List.eq_of_mem_replicate ha]
    intro hh
    exact Bool.noConfusion hh
  have hwk0 : CacheProtection.wkCount (List.replicate n CacheProtection.GwpPC.start) = 0 := by
    unfold CacheProtection.wkCount
    rw [List.countP_eq_zero]
    intro a ha
    rw [List.eq_of_mem_replicate ha]
    intro hh
    exact Bool.noConfusion hh
  refine ⟨fun _ => h0, ?_, fun j _ => rfl, fun j _ => rfl, ?_, ?_, ?_, ?_⟩
  · show CacheProtection.holders (List.replicate n CacheProtection.GwpPC.start) ≤ 1
    omega
  · show (0 : Nat) = (if (none : Option (Nat × Nat)).isSome then 1 else 0) +
      CacheProtection.wkCount (List.replicate n CacheProtection.GwpPC.start)
    rw [hwk0]
    rfl
  · intro v t h
    exact Option.noConfusion h
  · intro j pc hj hpr
    have hps := hrep j pc hj
    rw [hps] at hpr
    exact Bool.noConfusion hpr
  · intro j v hor
    rcases hor with h1 | h1
    · exact CacheProtection.GwpPC.noConfusion (hrep j _ h1)
    · exact CacheProtection.GwpPC.noConfusion (hrep j _ h1)

/-- The scheduler preserves the invariant. -/
theorem CacheProtection.runSched_preserves (fbVal ttl : Nat) (sched : List Nat) :
    ∀ s : CacheProtection.GwpSys, CacheProtection.Inv fbVal ttl s →
      CacheProtection.Inv fbVal ttl (CacheProtection.runSched fbVal ttl sched s) := by
  induction sched with
  | nil => exact fun s h => h
  | cons i rest ih =>
    intro s h
    exact ih _ (CacheProtection.step_preserves fbVal ttl s i h)

/-- Steps never change the number of tasks. -/
theorem CacheProtection.step_length (fbVal ttl : Nat) (s : CacheProtection.GwpSys)
    (i : Nat) : (CacheProtection.step fbVal ttl s i).tasks.length = s.tasks.length := by
  unfold CacheProtection.step
  cases hpc : s.tasks[i]? with
  | none => rfl
  | some pc =>
    cases pc with
    | start =>
      cases hk : s.key with
      | none => exact List.length_set s.tasks i _
      | some vt =>
        obtain ⟨v, t⟩ := vt
        exact List.length_set s.tasks i _
    | tryLock =>
      by_cases hl : s.lock = true
      · rw [if_pos hl]
        exact List.length_set s.tasks i _
      · rw [if_neg hl]
        exact List.length_set s.tasks i _
    | dcheck =>
      cases hk : s.key with
      | none => exact List.length_set s.tasks i _
      | some vt =>
        obtain ⟨v, t⟩ := vt
        exact List.length_set s.tasks i _
    | runFb => exact List.length_set s.tasks i _
    | writeKey => exact List.length_set s.tasks i _
    | unlock v => exact List.length_set s.tasks i _
    | sleeping => exact List.length_set s.tasks i _
    | done v => rfl

/-- Schedules never change the number of tasks. -/
theorem CacheProtection.runSched_length (fbVal ttl : Nat) (sched : List Nat) :
    ∀ s : CacheProtection.GwpSys,
      (CacheProtection.runSched fbVal ttl sched s).tasks.length = s.tasks.length := by
  induction sched with
  | nil => exact fun s => rfl
  | cons i rest ih =>
    intro s
    rw [CacheProtection.runSched, ih, CacheProtection.step_length]

/-- Claim C6: double-check single-flight.  For `N > 0` concurrent
`getOrCompute` callers on a missing key and any interleaving that runs all
callers to completion (with no lock expiry, i.e. one lock-holder epoch),
`fallback` is invoked exactly once, the key ends up present holding the
fallback value with the requested TTL, and every caller returns that same
value. -/
theorem getwithprotection_single_flight (fbVal ttl n : Nat) (sched : List Nat)
    (hn : 0 < n)
    (hdone : CacheProtection.allDone
      (CacheProtection.runSched fbVal ttl sched (CacheProtection.initSys n)) = true) :
    (CacheProtection.runSched fbVal ttl sched (CacheProtection.initSys n)).fbCount = 1 ∧
    (CacheProtection.runSched fbVal ttl sched (CacheProtection.initSys n)).key =
      some (fbVal, ttl) ∧
    (∀ i v : Nat,
      (CacheProtection.runSched fbVal ttl sched (CacheProtection.initSys n)).tasks[i]? =
        some (CacheProtection.GwpPC.done v) → v = fbVal) := by
  have hinv := CacheProtection.runSched_preserves fbVal ttl sched _
    (CacheProtection.inv_init fbVal ttl n)
  have hlen : (CacheProtection.runSched fbVal ttl sched
      (CacheProtection.initSys n)).tasks.length = n := by
    rw [CacheProtection.runSched_length]
    exact List.length_replicate n _
  have hall : ∀ pc ∈ (CacheProtection.runSched fbVal ttl sched
      (CacheProtection.initSys n)).tasks,
      ∃ v, pc = CacheProtection.GwpPC.done v := by
    intro pc h
    have hx : CacheProtection.isDone pc = true := by
      have hd := hdone
      unfold CacheProtection.allDone at hd
      rw [List.all_eq_true] at hd
      exact hd pc h
    cases pc with
    | done v => exact ⟨v, rfl⟩
    | start => exact Bool.noConfusion hx
    | tryLock => exact Bool.noConfusion hx
    | dcheck => exact Bool.noConfusion hx
    | runFb => exact Bool.noConfusion hx
    | writeKey => exact Bool.noConfusion hx
    | unlock v => exact Bool.noConfusion hx
    | sleeping => exact Bool.noConfusion hx
  have h0lt : 0 < (CacheProtection.runSched fbVal ttl sched
      (CacheProtection.initSys n)).tasks.length := by omega
  have h0 := List.getElem?_eq_getElem h0lt
  obtain ⟨v0, hv0⟩ := hall _ (List.getElem?_mem h0)
  have hksome : (CacheProtection.runSched fbVal ttl sched
      (CacheProtection.initSys n)).key.isSome = true := by
    refine hinv.postReadKey 0 _ h0 ?_
    rw [hv0]
    rfl
  obtain ⟨kp, hk⟩ := Option.isSome_iff_exists.mp hksome
  obtain ⟨kv, kt⟩ := kp
  obtain ⟨hkv, hkt⟩ := hinv.keyVal kv kt hk
  have hkeyF : (CacheProtection.runSched fbVal ttl sched
      (CacheProtection.initSys n)).key = some (fbVal, ttl) := by
    rw [hk, hkv, hkt]
  have hwk : CacheProtection.wkCount (CacheProtection.runSched fbVal ttl sched
      (CacheProtection.initSys n)).tasks = 0 := by
    unfold CacheProtection.wkCount
    rw [List.countP_eq_zero]
    intro pc h
    obtain ⟨v, rfl⟩ := hall pc h
    intro hh
    exact Bool.noConfusion hh
  refine ⟨?_, hkeyF, ?_⟩
  · have hfb := hinv.fbEq
    have ho : (if (some (fbVal, ttl) : Option (Nat × Nat)).isSome then 1 else 0) = 1 := rfl
    rw [hkeyF, hwk, ho] at hfb
    omega
  · intro i v hv
    exact hinv.retVal i v (Or.inl hv)

set_option maxHeartbeats 1600000 in
/-- Witness for C6: three concurrent callers with the S4-style schedule —
the first caller does the whole protected fill, the other two read the
cached value; `fallback` ran once and everyone got the fallback value. -/
theorem getwithprotection_single_flight_witness :
    0 < 3 ∧
    CacheProtection.allDone (CacheProtection.runSched 7 3600 [0, 0, 0, 0, 0, 0, 1, 2]
      (CacheProtection.initSys 3)) = true ∧
    ((CacheProtection.runSched 7 3600 [0, 0, 0, 0, 0, 0, 1, 2]
        (CacheProtection.initSys 3)).fbCount = 1 ∧
      (CacheProtection.runSched 7 3600 [0, 0, 0, 0, 0, 0, 1, 2]
        (CacheProtection.initSys 3)).key = some (7, 3600) ∧
      (∀ i v : Nat,
        (CacheProtection.runSched 7 3600 [0, 0, 0, 0, 0, 0, 1, 2]
          (CacheProtection.initSys 3)).tasks[i]? =
          some (CacheProtection.GwpPC.done v) → v = 7)) :=
  ⟨by decide, by decide,
    getwithprotection_single_flight 7 3600 3 [0, 0, 0, 0, 0, 0, 1, 2]
      (by decide) (by decide)⟩

/-! ## Claim theorems: C7 -/

/-- Updating every entry under a key, read back at that key. -/
theorem lookupA_mapupd_self {α : Type} (l : List (String × α)) (n : String) (f : α → α) :
    lookupA (l.map (fun e => if e.1 = n then (e.1, f e.2) else e)) n =
      (lookupA l n).map f := by
  induction l with
  | nil => rfl
  | cons hd tl ih =>
    cases hd with
    | mk k v =>
      by_cases hk : k = n
      · show lookupA ((if k = n then (k, f v) else (k, v)) ::
            tl.map (fun e => if e.1 = n then (e.1, f e.2) else e)) n =
          Option.map f (if k = n then some v else lookupA tl n)
        rw [if_pos hk]
        show (if k = n then some (f v)
            else lookupA (tl.map (fun e => if e.1 = n then (e.1, f e.2) else e)) n) =
          Option.map f (if k = n then some v else lookupA tl n)
        rw [if_pos hk, if_pos hk]
        rfl
      · show lookupA ((if k = n then (k, f v) else (k, v)) ::
            tl.map (fun e => if e.1 = n then (e.1, f e.2) else e)) n =
          Option.map f (if k = n then some v else lookupA tl n)
        rw [if_neg hk]
        show (if k = n then some v
            else lookupA (tl.map (fun e => if e.1 = n then (e.1, f e.2) else e)) n) =
          Option.map f (if k = n then some v else lookupA tl n)
        rw [if_neg hk, if_neg hk]
        exact ih

/-- Updating every entry under one key leaves other keys unchanged. -/
theorem lookupA_mapupd_ne {α : Type} (l : List (String × α)) (n k' : String) (f : α → α)
    (h : k' ≠ n) :
    lookupA (l.map (fun e => if e.1 = n then (e.1, f e.2) else e)) k' = lookupA l k' := by
  induction l with
  | nil => rfl
  | cons hd tl ih =>
    cases hd with
    | mk k v =>
      by_cases hk : k = n
      · show lookupA ((if k = n then (k, f v) else (k, v)) ::
            tl.map (fun e => if e.1 = n then (e.1, f e.2) else e)) k' =
          (if k = k' then some v else lookupA tl k')
        rw [if_pos hk]
        show (if k = k' then some (f v)
            else lookupA (tl.map (fun e => if e.1 = n then (e.1, f e.2) else e)) k') =
          (if k = k' then some v else lookupA tl k')
        rw [if_neg (hk ▸ fun hh => h hh.symm), if_neg (hk ▸ fun hh => h hh.symm)]
        exact ih
      · show lookupA ((if k = n then (k, f v) else (k, v)) ::
            tl.map (fun e => if e.1 = n then (e.1, f e.2) else e)) k' =
          (if k = k' then some v else lookupA tl k')
        rw [if_neg hk]
        show (if k = k' then some v
            else lookupA (tl.map (fun e => if e.1 = n then (e.1, f e.2) else e)) k') =
          (if k = k' then some v else lookupA tl k')
        by_cases hkk : k = k'
        · rw [if_pos hkk, if_pos hkk]
        · rw [if_neg hkk, if_neg hkk]
          exact ih

/-- Claim C7: labelled counter accumulation (scenario S1).  After
registering counter `http_requests` with labels `[method, status]` and
calling `set` with 1 twice for GET/200 and once for POST/201, the snapshot
shows exactly the two label tuples with the GET/200 tuple at 2 — because
`set` on a counter adds the given (non-negative) value onto the tuple's
current value rather than assigning it, as the second conjunct states in
general. -/
theorem counter_label_accumulation :
    (Metrics.getMetrics Metrics.mcS1 =
      [{ name := "app_http_requests", type := Metrics.MetricType.counter,
         help := "Total requests", labelNames := ["method", "status"], value := none,
         values := [([("method", "GET"), ("status", "200")], Metrics.MVal.num 2),
                    ([("method", "POST"), ("status", "201")], Metrics.MVal.num 1)] }]) ∧
    (∀ (mc : Metrics.MC) (name : String) (m : Metrics.Metric) (v : Int)
        (labels : List (String × String)),
      lookupA mc.metrics name = some m → m.type = Metrics.MetricType.counter →
      m.labelNames ≠ [] → ¬ v < 0 →
      ∃ m', lookupA (Metrics.setMetric mc name v labels).metrics name = some m' ∧
        lookupA m'.labelValues (Metrics.getLabelKey labels m.labelNames) =
          some (Metrics.MVal.num (Metrics.numOf
            ((lookupA m.labelValues (Metrics.getLabelKey labels m.labelNames)).getD
              (Metrics.MVal.num 0)) + v))) := by
  constructor
  · decide
  · intro mc name m v labels hlook hty hln hge
    unfold Metrics.setMetric
    rw [hlook]
    simp only [hty]
    rw [if_pos hln, if_neg hge]
    unfold Metrics.updateMetric
    refine ⟨{ m with labelValues := (setA m.labelValues
        (Metrics.getLabelKey labels m.labelNames)
        (Metrics.MVal.num (Metrics.numOf ((lookupA m.labelValues
          (Metrics.getLabelKey labels m.labelNames)).getD (Metrics.MVal.num 0)) + v))) },
      ?_, ?_⟩
    · have hres := lookupA_mapupd_self mc.metrics name (fun m1 =>
        { m1 with labelValues := (setA m1.labelValues
            (Metrics.getLabelKey labels m.labelNames)
            (Metrics.MVal.num (Metrics.numOf ((lookupA m1.labelValues
              (Metrics.getLabelKey labels m.labelNames)).getD (Metrics.MVal.num 0)) + v))) })
      rw [hlook] at hres
      exact hres
    · exact lookupA_setA_self _ _ _

/-- Witness for C7: one `set` of 1 on the freshly registered S1 counter
stores 1 under the GET/200 tuple. -/
theorem counter_label_accumulation_witness :
    ∃ m', lookupA (Metrics.setMetric Metrics.mcReg "http_requests" 1
        [("method", "GET"), ("status", "200")]).metrics "http_requests" = some m' ∧
      lookupA m'.labelValues "method:GET,status:200" = some (Metrics.MVal.num 1) :=
  counter_label_accumulation.2 Metrics.mcReg "http_requests"
    { name := "app_http_requests", type := Metrics.MetricType.counter,
      help := "Total requests", labelNames := ["method", "status"],
      value := Metrics.MVal.num 0, labelValues := [] }
    1 [("method", "GET"), ("status", "200")] (by decide) rfl (by decide) (by decide)

/-! ## Claim theorems: C8 -/

/-- Bumping a bucket increments exactly that bucket. -/
theorem Metrics.bucketGet_bumpBucket_self (bs : List (Nat × Nat)) (b : Nat) :
    Metrics.bucketGet (Metrics.bumpBucket bs b) b = Metrics.bucketGet bs b + 1 := by
  induction bs with
  | nil => simp [Metrics.bumpBucket, Metrics.bucketGet]
  | cons hd tl ih =>
    cases hd with
    | mk b' c =>
      by_cases hb : b' = b
      · simp only [Metrics.bumpBucket, Metrics.bucketGet]
        rw [if_pos hb]
        simp only [Metrics.bucketGet]
        rw [if_pos hb, if_pos hb]
      · simp only [Metrics.bumpBucket, Metrics.bucketGet]
        rw [if_neg hb]
        simp only [Metrics.bucketGet]
        rw [if_neg hb, if_neg hb]
        exact ih

/-- Bumping a bucket leaves other buckets unchanged. -/
theorem Metrics.bucketGet_bumpBucket_ne (bs : List (Nat × Nat)) (b b' : Nat)
    (h : b' ≠ b) :
    Metrics.bucketGet (Metrics.bumpBucket bs b) b' = Metrics.bucketGet bs b' := by
  induction bs with
  | nil =>
    simp only [Metrics.bumpBucket, Metrics.bucketGet]
    rw [if_neg (fun hh => h hh.symm)]
  | cons hd tl ih =>
    cases hd with
    | mk b0 c =>
      by_cases hb : b0 = b
      · simp only [Metrics.bumpBucket]
        rw [if_pos hb]
        simp only [Metrics.bucketGet]
        have hbb : ¬ b0 = b' := fun hh => h ((hb ▸ hh).symm)
        rw [if_neg hbb, if_neg hbb]
      · simp only [Metrics.bumpBucket]
        rw [if_neg hb]
        simp only [Metrics.bucketGet]
        by_cases hb' : b0 = b'
        · rw [if_pos hb', if_pos hb']
        · rw [if_neg hb', if_neg hb']
          exact ih

/-- The bucket-update fold over a duplicate-free boundary list, read back
at one boundary. -/
theorem Metrics.bucketGet_foldBump (v : Int) :
    ∀ (ladder : List Nat) (bs : List (Nat × Nat)) (b : Nat), ladder.Nodup →
      Metrics.bucketGet (ladder.foldl
        (fun bs b => if v ≤ Int.ofNat b then Metrics.bumpBucket bs b else bs) bs) b =
      Metrics.bucketGet bs b + (if b ∈ ladder ∧ v ≤ Int.ofNat b then 1 else 0) := by
  intro ladder
  induction ladder with
  | nil =>
    intro bs b _
    simp
  | cons a rest ih =>
    intro bs b hnd
    have hnd' : rest.Nodup := (List.nodup_cons.mp hnd).2
    have hna : a ∉ rest := (List.nodup_cons.mp hnd).1
    rw [List.foldl_cons, ih _ b hnd']
    by_cases hba : b = a
    · subst hba
      have hrest0 : (if b ∈ rest ∧ v ≤ Int.ofNat b then 1 else 0) = 0 := by
        rw [if_neg (fun hc => hna hc.1)]
      rw [hrest0]
      by_cases hv : v ≤ Int.ofNat b
      · rw [if_pos hv, Metrics.bucketGet_bumpBucket_self,
          if_pos ⟨List.mem_cons_self b rest, hv⟩]
      · rw [if_neg hv, if_neg (fun hc => hv hc.2)]
    · have hacc : Metrics.bucketGet
          (if v ≤ Int.ofNat a then Metrics.bumpBucket bs a else bs) b =
          Metrics.bucketGet bs b := by
        by_cases hv : v ≤ Int.ofNat a
        · rw [if_pos hv]
          exact Metrics.bucketGet_bumpBucket_ne bs a b hba
        · rw [if_neg hv]
      rw [hacc]
      have hiff : (b ∈ a :: rest ∧ v ≤ Int.ofNat b) ↔ (b ∈ rest ∧ v ≤ Int.ofNat b) := by
        constructor
        · intro hc
          refine ⟨?_, hc.2⟩
          rcases List.mem_cons.mp hc.1 with h1 | h1
          · exact absurd h1 hba
          · exact h1
        · exact fun hc => ⟨List.mem_cons_of_mem a hc.1, hc.2⟩
      by_cases hm : b ∈ rest ∧ v ≤ Int.ofNat b
      · rw [if_pos hm, if_pos (hiff.mpr hm)]
      · rw [if_neg hm, if_neg (fun hc => hm (hiff.mp hc))]

/-- Claim C8: histogram coherence.  Each observation increments `count` by
1, adds the value to `sum`, and increments exactly the ladder buckets whose
boundary is at least the value; over any observation sequence the count
equals the number of observations; and the exported `+Inf` bucket line
always carries the cell's `count`. -/
theorem histogram_coherence :
    (∀ (h : Metrics.Hist) (v : Int),
      (Metrics.observeCell h v).count = h.count + 1 ∧
      (Metrics.observeCell h v).sum = h.sum + v ∧
      (∀ b ∈ Metrics.bucketLadder,
        Metrics.bucketGet (Metrics.observeCell h v).buckets b =
          Metrics.bucketGet h.buckets b + (if v ≤ Int.ofNat b then 1 else 0))) ∧
    (∀ (vs : List Int) (h : Metrics.Hist),
      (vs.foldl Metrics.observeCell h).count = h.count + vs.length) ∧
    (∀ (mc : Metrics.MC) (name : String) (m : Metrics.Metric),
      (name, m) ∈ mc.metrics → m.type = Metrics.MetricType.histogram →
      m.labelNames = [] →
      (m.name ++ "_bucket\x7ble=\"+Inf\"\x7d " ++ toString (Metrics.histOf m.value).count) ∈
        Metrics.exportPrometheusLines mc) := by
  refine ⟨?_, ?_, ?_⟩
  · intro h v
    refine ⟨rfl, rfl, ?_⟩
    intro b hb
    show Metrics.bucketGet (Metrics.bucketLadder.foldl
      (fun bs b => if v ≤ Int.ofNat b then Metrics.bumpBucket bs b else bs) h.buckets) b = _
    rw [Metrics.bucketGet_foldBump v Metrics.bucketLadder h.buckets b (by decide)]
    by_cases hv : v ≤ Int.ofNat b
    · rw [if_pos ⟨hb, hv⟩, if_pos hv]
    · rw [if_neg (fun hc => hv hc.2), if_neg hv]
  · intro vs
    induction vs with
    | nil =>
      intro h
      rfl
    | cons a rest ih =>
      intro h
      rw [List.foldl_cons, ih]
      show h.count + 1 + rest.length = h.count + (rest.length + 1)
      omega
  · intro mc name m hmem hty hln
    unfold Metrics.exportPrometheusLines
    refine List.mem_flatMap.mpr ⟨(name, m), hmem, ?_⟩
    unfold Metrics.renderMetricLines
    rw [hln]
    rw [if_pos rfl]
    rw [hty]
    refine List.mem_append_right _ ?_
    refine List.mem_append_right _ ?_
    exact List.mem_singleton.mpr rfl

/-- Witness for C8: the freshly registered label-less histogram exports a
`+Inf` bucket line carrying its (zero) count. -/
theorem histogram_coherence_witness :
    ("app_req_time_bucket\x7ble=\"+Inf\"\x7d 0") ∈
      Metrics.exportPrometheusLines Metrics.mcH0 :=
  histogram_coherence.2.2 Metrics.mcH0 "req_time"
    { name := "app_req_time", type := Metrics.MetricType.histogram,
      help := "Request time", labelNames := [],
      value := Metrics.MVal.hist { sum := 0, count := 0, buckets := [] },
      labelValues := [] }
    (by decide) rfl rfl

/-! ## Claim theorems: C9 -/

/-- Looking a key up in a concatenation searches the left list first. -/
theorem lookupA_append {α : Type} (l1 l2 : List (String × α)) (k : String) :
    lookupA (l1 ++ l2) k =
      match lookupA l1 k with
      | some v => some v
      | none => lookupA l2 k := by
  induction l1 with
  | nil => rfl
  | cons hd tl ih =>
    cases hd with
    | mk k0 v0 =>
      by_cases h : k0 = k
      · simp only [List.cons_append, lookupA, if_pos h]
      · simp only [List.cons_append, lookupA, if_neg h]
        exact ih

/-- `updateMetric` maps the stored entry under its own name. -/
theorem Metrics.lookupA_updateMetric (mc : Metrics.MC) (n : String)
    (f : Metrics.Metric → Metrics.Metric) :
    lookupA (Metrics.updateMetric mc n f).metrics n = (lookupA mc.metrics n).map f := by
  show lookupA (mc.metrics.map (fun e => if e.1 = n then (e.1, f e.2) else e)) n =
    (lookupA mc.metrics n).map f
  exact lookupA_mapupd_self mc.metrics n f

/-- `updateMetric` leaves every other name unchanged. -/
theorem Metrics.lookupA_updateMetric_ne (mc : Metrics.MC) (n name : String)
    (f : Metrics.Metric → Metrics.Metric) (hne : name ≠ n) :
    lookupA (Metrics.updateMetric mc n f).metrics name = lookupA mc.metrics name := by
  show lookupA (mc.metrics.map (fun e => if e.1 = n then (e.1, f e.2) else e)) name =
    lookupA mc.metrics name
  exact lookupA_mapupd_ne mc.metrics n name f hne

/-- Counter read of an updated entry, in terms of the update function. -/
theorem Metrics.counterRead_updateMetric_self (mc : Metrics.MC) (name : String)
    (okey : Option String) (f : Metrics.Metric → Metrics.Metric) (m : Metrics.Metric)
    (hlook : lookupA mc.metrics name = some m) :
    Metrics.counterRead (Metrics.updateMetric mc name f) name okey =
      match okey with
      | none => Metrics.numOf (f m).value
      | some k => Metrics.numOf ((lookupA (f m).labelValues k).getD (Metrics.MVal.num 0)) := by
  unfold Metrics.counterRead
  rw [Metrics.lookupA_updateMetric mc name f, hlook]
  cases okey <;> rfl

/-- Counter read of any other name is unchanged by `updateMetric`. -/
theorem Metrics.counterRead_updateMetric_ne (mc : Metrics.MC) (n name : String)
    (okey : Option String) (f : Metrics.Metric → Metrics.Metric) (hne : name ≠ n) :
    Metrics.counterRead (Metrics.updateMetric mc n f) name okey =
      Metrics.counterRead mc name okey := by
  unfold Metrics.counterRead
  rw [Metrics.lookupA_updateMetric_ne mc n name f hne]

/-- `setMetric` on an unregistered name is dropped. -/
theorem Metrics.setMetric_none (mc : Metrics.MC) (n : String) (v : Int)
    (ls : List (String × String)) (h : lookupA mc.metrics n = none) :
    Metrics.setMetric mc n v ls = mc := by
  unfold Metrics.setMetric
  simp only [h]

/-- `setMetric` with a negative value on a counter is rejected: the state
is returned unchanged (the source only logs a warning). -/
theorem Metrics.setMetric_neg (mc : Metrics.MC) (n : String) (v : Int)
    (ls : List (String × String)) (m : Metrics.Metric)
    (h : lookupA mc.metrics n = some m) (hty : m.type = Metrics.MetricType.counter)
    (hv : v < 0) : Metrics.setMetric mc n v ls = mc := by
  unfold Metrics.setMetric
  simp only [h, hty]
  by_cases hln : m.labelNames ≠ []
  · rw [if_pos hln, if_pos hv]
  · rw [if_neg hln, if_pos hv]

/-- `setMetric` equation: labelled counter, non-negative value. -/
theorem Metrics.setMetric_counter_lab (mc : Metrics.MC) (n : String) (v : Int)
    (ls : List (String × String)) (m : Metrics.Metric)
    (h : lookupA mc.metrics n = some m) (hty : m.type = Metrics.MetricType.counter)
    (hln : m.labelNames ≠ []) (hv : ¬ v < 0) :
    Metrics.setMetric mc n v ls =
      Metrics.updateMetric mc n
        (Metrics.counterCellUpd (Metrics.getLabelKey ls m.labelNames) v) := by
  unfold Metrics.setMetric
  simp only [h, hty]
  rw [if_pos hln, if_neg hv]

/-- `setMetric` equation: plain counter, non-negative value. -/
theorem Metrics.setMetric_counter_plain (mc : Metrics.MC) (n : String) (v : Int)
    (ls : List (String × String)) (m : Metrics.Metric)
    (h : lookupA mc.metrics n = some m) (hty : m.type = Metrics.MetricType.counter)
    (hln : m.labelNames = []) (hv : ¬ v < 0) :
    Metrics.setMetric mc n v ls = Metrics.updateMetric mc n (Metrics.counterPlainUpd v) := by
  unfold Metrics.setMetric
  simp only [h, hty]
  rw [if_neg (not_not_intro hln), if_neg hv]

/-- `setMetric` equation: labelled gauge. -/
theorem Metrics.setMetric_gauge_lab (mc : Metrics.MC) (n : String) (v : Int)
    (ls : List (String × String)) (m : Metrics.Metric)
    (h : lookupA mc.metrics n = some m) (hty : m.type = Metrics.MetricType.gauge)
    (hln : m.labelNames ≠ []) :
    Metrics.setMetric mc n v ls =
      Metrics.updateMetric mc n
        (Metrics.gaugeCellUpd (Metrics.getLabelKey ls m.labelNames) v) := by
  unfold Metrics.setMetric
  simp only [h, hty]
  rw [if_pos hln]

/-- `setMetric` equation: plain gauge. -/
theorem Metrics.setMetric_gauge_plain (mc : Metrics.MC) (n : String) (v : Int)
    (ls : List (String × String)) (m : Metrics.Metric)
    (h : lookupA mc.metrics n = some m) (hty : m.type = Metrics.MetricType.gauge)
    (hln : m.labelNames = []) :
    Metrics.setMetric mc n v ls = Metrics.updateMetric mc n (Metrics.gaugePlainUpd v) := by
  unfold Metrics.setMetric
  simp only [h, hty]
  rw [if_neg (not_not_intro hln)]

/-- `setMetric` equation: labelled histogram. -/
theorem Metrics.setMetric_hist_lab (mc : Metrics.MC) (n : String) (v : Int)
    (ls : List (String × String)) (m : Metrics.Metric)
    (h : lookupA mc.metrics n = some m) (hty : m.type = Metrics.MetricType.histogram)
    (hln : m.labelNames ≠ []) :
    Metrics.setMetric mc n v ls =
      Metrics.updateMetric mc n
        (Metrics.histCellUpd (Metrics.getLabelKey ls m.labelNames) v) := by
  unfold Metrics.setMetric
  simp only [h, hty]
  rw [if_pos hln]

/-- `setMetric` equation: plain histogram. -/
theorem Metrics.setMetric_hist_plain (mc : Metrics.MC) (n : String) (v : Int)
    (ls : List (String × String)) (m : Metrics.Metric)
    (h : lookupA mc.metrics n = some m) (hty : m.type = Metrics.MetricType.histogram)
    (hln : m.labelNames = []) :
    Metrics.setMetric mc n v ls = Metrics.updateMetric mc n (Metrics.histPlainUpd v) := by
  unfold Metrics.setMetric
  simp only [h, hty]
  rw [if_neg (not_not_intro hln)]

/-- `updateMetric` preserves well-formedness when the update function keeps
the stored entry's counter cells non-negative. -/
theorem Metrics.WF_updateMetric (mc : Metrics.MC) (n : String)
    (f : Metrics.Metric → Metrics.Metric) (hwf : Metrics.WF mc)
    (hf : ∀ m, lookupA mc.metrics n = some m →
      (f m).type = Metrics.MetricType.counter →
      0 ≤ Metrics.numOf (f m).value ∧
      ∀ k mv, lookupA (f m).labelValues k = some mv → 0 ≤ Metrics.numOf mv) :
    Metrics.WF (Metrics.updateMetric mc n f) := by
  intro name m2 hlook2 hty2
  by_cases hnn : name = n
  · rw [hnn] at hlook2
    rw [Metrics.lookupA_updateMetric mc n f] at hlook2
    cases hl : lookupA mc.metrics n with
    | none =>
      rw [hl] at hlook2
      exact Option.noConfusion hlook2
    | some m =>
      rw [hl] at hlook2
      have hm2 : m2 = f m := (Option.some.inj hlook2).symm
      subst hm2
      exact hf m hl hty2
  · rw [Metrics.lookupA_updateMetric_ne mc n name f hnn] at hlook2
    exact hwf name m2 hlook2 hty2

/-- `setMetric` preserves well-formedness of the collector. -/
theorem Metrics.WF_setMetric (mc : Metrics.MC) (n : String) (v : Int)
    (ls : List (String × String)) (hwf : Metrics.WF mc) :
    Metrics.WF (Metrics.setMetric mc n v ls) := by
  cases hl : lookupA mc.metrics n with
  | none =>
    rw [Metrics.setMetric_none mc n v ls hl]
    exact hwf
  | some m =>
    cases hty : m.type with
    | counter =>
      by_cases hv : v < 0
      · rw [Metrics.setMetric_neg mc n v ls m hl hty hv]
        exact hwf
      · by_cases hln : m.labelNames ≠ []
        · rw [Metrics.setMetric_counter_lab mc n v ls m hl hty hln hv]
          apply Metrics.WF_updateMetric mc n _ hwf
          intro m0 hl0 hty0
          have hm0 : m0 = m := by
            rw [hl] at hl0
            exact (Option.some.inj hl0).symm
          subst hm0
          constructor
          · show 0 ≤ Metrics.numOf m0.value
            exact (hwf n m0 hl hty).1
          · intro k mv hkv
            have hkv' : lookupA (setA m0.labelValues
                (Metrics.getLabelKey ls m0.labelNames)
                (Metrics.MVal.num (Metrics.numOf ((lookupA m0.labelValues
                  (Metrics.getLabelKey ls m0.labelNames)).getD
                    (Metrics.MVal.num 0)) + v))) k = some mv := hkv
            by_cases hk : k = Metrics.getLabelKey ls m0.labelNames
            · subst hk
              rw [lookupA_setA_self] at hkv'
              have hmv : mv = Metrics.MVal.num (Metrics.numOf ((lookupA m0.labelValues
                  (Metrics.getLabelKey ls m0.labelNames)).getD
                    (Metrics.MVal.num 0)) + v) := (Option.some.inj hkv').symm
              subst hmv
              show 0 ≤ Metrics.numOf ((lookupA m0.labelValues
                (Metrics.getLabelKey ls m0.labelNames)).getD (Metrics.MVal.num 0)) + v
              have hX : 0 ≤ Metrics.numOf ((lookupA m0.labelValues
                  (Metrics.getLabelKey ls m0.labelNames)).getD (Metrics.MVal.num 0)) := by
                cases hx : lookupA m0.labelValues (Metrics.getLabelKey ls m0.labelNames) with
                | none => exact le_refl 0
                | some mv0 =>
                  exact (hwf n m0 hl hty).2 (Metrics.getLabelKey ls m0.labelNames) mv0 hx
              omega
            · rw [lookupA_setA_ne m0.labelValues
                (Metrics.getLabelKey ls m0.labelNames) k _ hk] at hkv'
              exact (hwf n m0 hl hty).2 k mv hkv'
        · rw [Metrics.setMetric_counter_plain mc n v ls m hl hty (not_ne_iff.mp hln) hv]
          apply Metrics.WF_updateMetric mc n _ hwf
          intro m0 hl0 hty0
          have hm0 : m0 = m := by
            rw [hl] at hl0
            exact (Option.some.inj hl0).symm
          subst hm0
          constructor
          · show 0 ≤ Metrics.numOf m0.value + v
            have h1 := (hwf n m0 hl hty).1
            omega
          · intro k mv hkv
            exact (hwf n m0 hl hty).2 k mv hkv
    | gauge =>
      by_cases hln : m.labelNames ≠ []
      · rw [Metrics.setMetric_gauge_lab mc n v ls m hl hty hln]
        apply Metrics.WF_updateMetric mc n _ hwf
        intro m0 hl0 hty0
        have hm0 : m0 = m := by
          rw [hl] at hl0
          exact (Option.some.inj hl0).symm
        subst hm0
        have hc : m0.type = Metrics.MetricType.counter := hty0
        rw [hty] at hc
        exact Metrics.MetricType.noConfusion hc
      · rw [Metrics.setMetric_gauge_plain mc n v ls m hl hty (not_ne_iff.mp hln)]
        apply Metrics.WF_updateMetric mc n _ hwf
        intro m0 hl0 hty0
        have hm0 : m0 = m := by
          rw [hl] at hl0
          exact (Option.some.inj hl0).symm
        subst hm0
        have hc : m0.type = Metrics.MetricType.counter := hty0
        rw [hty] at hc
        exact Metrics.MetricType.noConfusion hc
    | histogram =>
      by_cases hln : m.labelNames ≠ []
      · rw [Metrics.setMetric_hist_lab mc n v ls m hl hty hln]
        apply Metrics.WF_updateMetric mc n _ hwf
        intro m0 hl0 hty0
        have hm0 : m0 = m := by
          rw [hl] at hl0
          exact (Option.some.inj hl0).symm
        subst hm0
        have hc : m0.type = Metrics.MetricType.counter := hty0
        rw [hty] at hc
        exact Metrics.MetricType.noConfusion hc
      · rw [Metrics.setMetric_hist_plain mc n v ls m hl hty (not_ne_iff.mp hln)]
        apply Metrics.WF_updateMetric mc n _ hwf
        intro m0 hl0 hty0
        have hm0 : m0 = m := by
          rw [hl] at hl0
          exact (Option.some.inj hl0).symm
        subst hm0
        have hc : m0.type = Metrics.MetricType.counter := hty0
        rw [hty] at hc
        exact Metrics.MetricType.noConfusion hc

/-- An already-registered name is looked up unchanged after `registerMetric`. -/
theorem Metrics.lookupA_registerMetric (mc : Metrics.MC) (n : String)
    (ty : Metrics.MetricType) (help : String) (ln : List String) (name : String)
    (m : Metrics.Metric) (hlook : lookupA mc.metrics name = some m) :
    lookupA (Metrics.registerMetric mc n ty help ln).metrics name = some m := by
  unfold Metrics.registerMetric
  cases hl : lookupA mc.metrics n with
  | some m0 => exact hlook
  | none =>
    show lookupA (mc.metrics ++ [(n, _)]) name = some m
    rw [lookupA_append mc.metrics _ name, hlook]

/-- Appending a fresh entry preserves well-formedness when the fresh entry
itself satisfies the counter constraints. -/
theorem Metrics.WF_append (mc : Metrics.MC) (n : String) (mFresh : Metrics.Metric)
    (hwf : Metrics.WF mc)
    (hfresh : mFresh.type = Metrics.MetricType.counter →
      0 ≤ Metrics.numOf mFresh.value ∧
      ∀ k mv, lookupA mFresh.labelValues k = some mv → 0 ≤ Metrics.numOf mv) :
    Metrics.WF { mc with metrics := mc.metrics ++ [(n, mFresh)] } := by
  intro name m2 hlook2 hty2
  have hlook2' : lookupA (mc.metrics ++ [(n, mFresh)]) name = some m2 := hlook2
  rw [lookupA_append mc.metrics _ name] at hlook2'
  cases hl2 : lookupA mc.metrics name with
  | some m0 =>
    rw [hl2] at hlook2'
    have hm2 : m2 = m0 := (Option.some.inj hlook2').symm
    subst hm2
    exact hwf name m2 hl2 hty2
  | none =>
    rw [hl2] at hlook2'
    have hl3 : (if n = name then some mFresh else none) = some m2 := hlook2'
    by_cases hnn : n = name
    · rw [if_pos hnn] at hl3
      have hm2 : m2 = mFresh := (Option.some.inj hl3).symm
      subst hm2
      exact hfresh hty2
    · rw [if_neg hnn] at hl3
      exact Option.noConfusion hl3

/-- `registerMetric` preserves well-formedness: a fresh counter starts at 0
with no labelled cells. -/
theorem Metrics.WF_registerMetric (mc : Metrics.MC) (n : String)
    (ty : Metrics.MetricType) (help : String) (ln : List String)
    (hwf : Metrics.WF mc) : Metrics.WF (Metrics.registerMetric mc n ty help ln) := by
  unfold Metrics.registerMetric
  cases hl : lookupA mc.metrics n with
  | some m0 => exact hwf
  | none =>
    refine Metrics.WF_append mc n _ hwf ?_
    intro hty2
    have hty' : ty = Metrics.MetricType.counter := hty2
    subst hty'
    constructor
    · exact le_refl 0
    · intro k mv hkv
      exact Option.noConfusion hkv

/-- `incrementCounter` preserves well-formedness. -/
theorem Metrics.WF_incrementCounter (mc : Metrics.MC) (n : String) (v : Int)
    (ls : List (String × String)) (hwf : Metrics.WF mc) :
    Metrics.WF (Metrics.incrementCounter mc n v ls) := by
  unfold Metrics.incrementCounter
  cases hl : lookupA mc.metrics n with
  | none => exact hwf
  | some m =>
    show Metrics.WF (if m.type ≠ Metrics.MetricType.counter then mc
      else Metrics.setMetric mc n v ls)
    by_cases hty : m.type ≠ Metrics.MetricType.counter
    · rw [if_pos hty]
      exact hwf
    · rw [if_neg hty]
      exact Metrics.WF_setMetric mc n v ls hwf

/-- The empty collector is well-formed. -/
theorem Metrics.WF_initMC : Metrics.WF Metrics.initMC := by
  intro name m hlook hty
  exact Option.noConfusion hlook

/-- Every collector operation preserves well-formedness. -/
theorem Metrics.WF_applyOp (mc : Metrics.MC) (op : Metrics.MOp)
    (hwf : Metrics.WF mc) : Metrics.WF (Metrics.applyOp mc op) := by
  cases op with
  | reg n t h ln => exact Metrics.WF_registerMetric mc n t h ln hwf
  | set n v ls => exact Metrics.WF_setMetric mc n v ls hwf
  | inc n v ls => exact Metrics.WF_incrementCounter mc n v ls hwf

/-- The counter read of a registered name is unchanged by `registerMetric`. -/
theorem Metrics.counterRead_registerMetric (mc : Metrics.MC) (n : String)
    (ty : Metrics.MetricType) (help : String) (ln : List String) (name : String)
    (m : Metrics.Metric) (okey : Option String)
    (hlook : lookupA mc.metrics name = some m) :
    Metrics.counterRead (Metrics.registerMetric mc n ty help ln) name okey =
      Metrics.counterRead mc name okey := by
  unfold Metrics.counterRead
  rw [Metrics.lookupA_registerMetric mc n ty help ln name m hlook, hlook]

/-- For a registered counter, `setMetric` never decreases the readable
value (negative values are dropped, others accumulate). -/
theorem Metrics.counterRead_le_setMetric (mc : Metrics.MC) (n : String) (v : Int)
    (ls : List (String × String)) (name : String) (m : Metrics.Metric)
    (okey : Option String) (hlook : lookupA mc.metrics name = some m)
    (hty : m.type = Metrics.MetricType.counter) :
    Metrics.counterRead mc name okey ≤
      Metrics.counterRead (Metrics.setMetric mc n v ls) name okey := by
  cases hl : lookupA mc.metrics n with
  | none =>
    rw [Metrics.setMetric_none mc n v ls hl]
  | some mn =>
    by_cases hnn : name = n
    · rw [hnn] at hlook ⊢
      have hmn : mn = m := by
        have h2 := hlook
        rw [hl] at h2
        exact Option.some.inj h2
      subst hmn
      by_cases hv : v < 0
      · rw [Metrics.setMetric_neg mc n v ls mn hl hty hv]
      · by_cases hln : mn.labelNames ≠ []
        · rw [Metrics.setMetric_counter_lab mc n v ls mn hl hty hln hv,
            Metrics.counterRead_updateMetric_self mc n okey _ mn hl]
          cases okey with
          | none =>
            unfold Metrics.counterRead
            rw [hl]
            exact le_refl _
          | some k =>
            unfold Metrics.counterRead
            rw [hl]
            by_cases hk : k = Metrics.getLabelKey ls mn.labelNames
            · show Metrics.numOf ((lookupA mn.labelValues k).getD (Metrics.MVal.num 0)) ≤
                Metrics.numOf ((lookupA (setA mn.labelValues
                  (Metrics.getLabelKey ls mn.labelNames)
                  (Metrics.MVal.num (Metrics.numOf ((lookupA mn.labelValues
                    (Metrics.getLabelKey ls mn.labelNames)).getD
                      (Metrics.MVal.num 0)) + v))) k).getD (Metrics.MVal.num 0))
              subst hk
              rw [lookupA_setA_self]
              show Metrics.numOf ((lookupA mn.labelValues
                  (Metrics.getLabelKey ls mn.labelNames)).getD (Metrics.MVal.num 0)) ≤
                Metrics.numOf ((lookupA mn.labelValues
                  (Metrics.getLabelKey ls mn.labelNames)).getD (Metrics.MVal.num 0)) + v
              omega
            · show Metrics.numOf ((lookupA mn.labelValues k).getD (Metrics.MVal.num 0)) ≤
                Metrics.numOf ((lookupA (setA mn.labelValues
                  (Metrics.getLabelKey ls mn.labelNames)
                  (Metrics.MVal.num (Metrics.numOf ((lookupA mn.labelValues
                    (Metrics.getLabelKey ls mn.labelNames)).getD
                      (Metrics.MVal.num 0)) + v))) k).getD (Metrics.MVal.num 0))
              rw [lookupA_setA_ne mn.labelValues
                (Metrics.getLabelKey ls mn.labelNames) k _ hk]
        · rw [Metrics.setMetric_counter_plain mc n v ls mn hl hty (not_ne_iff.mp hln) hv,
            Metrics.counterRead_updateMetric_self mc n okey _ mn hl]
          cases okey with
          | none =>
            unfold Metrics.counterRead
            rw [hl]
            show Metrics.numOf mn.value ≤ Metrics.numOf mn.value + v
            omega
          | some k =>
            unfold Metrics.counterRead
            rw [hl]
            exact le_refl _
    · cases htyn : mn.type with
      | counter =>
        by_cases hv : v < 0
        · rw [Metrics.setMetric_neg mc n v ls mn hl htyn hv]
        · by_cases hln : mn.labelNames ≠ []
          · rw [Metrics.setMetric_counter_lab mc n v ls mn hl htyn hln hv]
            exact le_of_eq (Metrics.counterRead_updateMetric_ne mc n name okey _ hnn).symm
          · rw [Metrics.setMetric_counter_plain mc n v ls mn hl htyn (not_ne_iff.mp hln) hv]
            exact le_of_eq (Metrics.counterRead_updateMetric_ne mc n name okey _ hnn).symm
      | gauge =>
        by_cases hln : mn.labelNames ≠ []
        · rw [Metrics.setMetric_gauge_lab mc n v ls mn hl htyn hln]
          exact le_of_eq (Metrics.counterRead_updateMetric_ne mc n name okey _ hnn).symm
        · rw [Metrics.setMetric_gauge_plain mc n v ls mn hl htyn (not_ne_iff.mp hln)]
          exact le_of_eq (Metrics.counterRead_updateMetric_ne mc n name okey _ hnn).symm
      | histogram =>
        by_cases hln : mn.labelNames ≠ []
        · rw [Metrics.setMetric_hist_lab mc n v ls mn hl htyn hln]
          exact le_of_eq (Metrics.counterRead_updateMetric_ne mc n name okey _ hnn).symm
        · rw [Metrics.setMetric_hist_plain mc n v ls mn hl htyn (not_ne_iff.mp hln)]
          exact le_of_eq (Metrics.counterRead_updateMetric_ne mc n name okey _ hnn).symm

/-- For a registered counter, `incrementCounter` never decreases the
readable value. -/
theorem Metrics.counterRead_le_incrementCounter (mc : Metrics.MC) (n : String)
    (v : Int) (ls : List (String × String)) (name : String) (m : Metrics.Metric)
    (okey : Option String) (hlook : lookupA mc.metrics name = some m)
    (hty : m.type = Metrics.MetricType.counter) :
    Metrics.counterRead mc name okey ≤
      Metrics.counterRead (Metrics.incrementCounter mc n v ls) name okey := by
  unfold Metrics.incrementCounter
  cases hl : lookupA mc.metrics n with
  | none => exact le_refl _
  | some mn =>
    show Metrics.counterRead mc name okey ≤
      Metrics.counterRead (if mn.type ≠ Metrics.MetricType.counter then mc
        else Metrics.setMetric mc n v ls) name okey
    by_cases htyn : mn.type ≠ Metrics.MetricType.counter
    · rw [if_pos htyn]
    · rw [if_neg htyn]
      exact Metrics.counterRead_le_setMetric mc n v ls name m okey hlook hty

/-- For a registered counter, no collector operation decreases the
readable value. -/
theorem Metrics.counterRead_le_applyOp (mc : Metrics.MC) (op : Metrics.MOp)
    (name : String) (m : Metrics.Metric) (okey : Option String)
    (hlook : lookupA mc.metrics name = some m)
    (hty : m.type = Metrics.MetricType.counter) :
    Metrics.counterRead mc name okey ≤
      Metrics.counterRead (Metrics.applyOp mc op) name okey := by
  cases op with
  | reg n t h ln =>
    exact le_of_eq (Metrics.counterRead_registerMetric mc n t h ln name m okey hlook).symm
  | set n v ls => exact Metrics.counterRead_le_setMetric mc n v ls name m okey hlook hty
  | inc n v ls =>
    exact Metrics.counterRead_le_incrementCounter mc n v ls name m okey hlook hty

/-- In a well-formed collector every counter reads non-negative. -/
theorem Metrics.counterRead_nonneg (mc : Metrics.MC) (name : String)
    (m : Metrics.Metric) (okey : Option String) (hwf : Metrics.WF mc)
    (hlook : lookupA mc.metrics name = some m)
    (hty : m.type = Metrics.MetricType.counter) :
    0 ≤ Metrics.counterRead mc name okey := by
  unfold Metrics.counterRead
  rw [hlook]
  cases okey with
  | none => exact (hwf name m hlook hty).1
  | some k =>
    show 0 ≤ Metrics.numOf ((lookupA m.labelValues k).getD (Metrics.MVal.num 0))
    cases hx : lookupA m.labelValues k with
    | none => exact le_refl 0
    | some mv => exact (hwf name m hlook hty).2 k mv hx

/-- C9 — Counter monotonicity.  (1) The fresh collector is well-formed;
(2) every register/set/increment operation preserves well-formedness;
(3) a `setMetric` with a negative value on a counter is rejected with the
state unchanged (the source only warns); (4) for any registered counter
(labelled or not) no operation decreases the readable value — reads are
non-decreasing across every operation sequence; (5) in a well-formed
collector every counter cell reads ≥ 0. -/
theorem counter_monotonicity :
    Metrics.WF Metrics.initMC ∧
    (∀ mc op, Metrics.WF mc → Metrics.WF (Metrics.applyOp mc op)) ∧
    (∀ mc name m v ls, lookupA mc.metrics name = some m →
      m.type = Metrics.MetricType.counter → v < 0 →
      Metrics.setMetric mc name v ls = mc) ∧
    (∀ mc op name m okey, lookupA mc.metrics name = some m →
      m.type = Metrics.MetricType.counter →
      Metrics.counterRead mc name okey ≤
        Metrics.counterRead (Metrics.applyOp mc op) name okey) ∧
    (∀ mc name m okey, Metrics.WF mc → lookupA mc.metrics name = some m →
      m.type = Metrics.MetricType.counter →
      0 ≤ Metrics.counterRead mc name okey) := by
  refine ⟨Metrics.WF_initMC, ?_, ?_, ?_, ?_⟩
  · intro mc op hwf
    exact Metrics.WF_applyOp mc op hwf
  · intro mc name m v ls hlook hty hv
    exact Metrics.setMetric_neg mc name v ls m hlook hty hv
  · intro mc op name m okey hlook hty
    exact Metrics.counterRead_le_applyOp mc op name m okey hlook hty
  · intro mc name m okey hwf hlook hty
    exact Metrics.counterRead_nonneg mc name m okey hwf hlook hty

/-- C9 witness: on the registered `http_requests` counter a negative `set`
is dropped, an increment does not decrease the GET/200 cell, and the cell
reads non-negative. -/
theorem counter_monotonicity_witness :
    Metrics.setMetric Metrics.mcReg "http_requests" (-5)
        [("method", "GET"), ("status", "200")] = Metrics.mcReg ∧
    Metrics.counterRead Metrics.mcReg "http_requests"
        (some "method:GET,status:200") ≤
      Metrics.counterRead (Metrics.applyOp Metrics.mcReg
        (Metrics.MOp.inc "http_requests" 1 [("method", "GET"), ("status", "200")]))
        "http_requests" (some "method:GET,status:200") ∧
    0 ≤ Metrics.counterRead Metrics.mcReg "http_requests"
        (some "method:GET,status:200") := by
  have hlook : lookupA Metrics.mcReg.metrics "http_requests" = some
      { name := "app_http_requests", type := Metrics.MetricType.counter,
        help := "Total requests", labelNames := ["method", "status"],
        value := Metrics.MVal.num 0, labelValues := [] } := by decide
  refine ⟨counter_monotonicity.2.2.1 Metrics.mcReg "http_requests" _ (-5)
      [("method", "GET"), ("status", "200")] hlook rfl (by decide),
    counter_monotonicity.2.2.2.1 Metrics.mcReg
      (Metrics.MOp.inc "http_requests" 1 [("method", "GET"), ("status", "200")])
      "http_requests" _ (some "method:GET,status:200") hlook rfl,
    counter_monotonicity.2.2.2.2 Metrics.mcReg "http_requests" _
      (some "method:GET,status:200")
      (counter_monotonicity.2.1 Metrics.initMC
        (Metrics.MOp.reg "http_requests" Metrics.MetricType.counter "Total requests"
          ["method", "status"]) counter_monotonicity.1)
      hlook rfl⟩
